import Mathlib

/-- Lifecycle states of a reference-counted object (refcount.py module constants
CREATED, STARTING, LIVE, STOPPING). -/
inductive RefState where
  | CREATED
  | STARTING
  | LIVE
  | STOPPING
deriving DecidableEq, Repr

/-- A ref-counted object as seen by the manager: its identity (`iid`, standing in
for Python object identity), its `ref_count` and its `ref_mgmt_state`.  These
fields are owned and mutated only by the manager. -/
structure RCObject where
  iid : Nat
  ref_count : Int
  ref_mgmt_state : RefState
deriving DecidableEq, Repr

/-- Point update of a map modelled as a function into `Option`. -/
def upd {α : Type} (f : Nat → Option α) (k : Nat) (v : Option α) : Nat → Option α :=
  fun i => if i = k then v else f i

/-- Python `set.add` for sets of callback ids modelled as duplicate-free lists. -/
def listInsert (x : Nat) (l : List Nat) : List Nat :=
  if x ∈ l then l else x :: l

/-- Python `set.add` for sets of objects (identity given by `iid`). -/
def objInsert (o : RCObject) (l : List RCObject) : List RCObject :=
  if l.any (fun x => x.iid == o.iid) then l else o :: l

/-- Python `set.discard` for sets of objects (identity given by `iid`). -/
def objDiscard (iid : Nat) (l : List RCObject) : List RCObject :=
  l.filter (fun x => x.iid != iid)

/-- State of a `ReferenceManager`: the current instance per id (`objects_by_id`),
the draining instances per id (`stopping_objects_by_id`, a `defaultdict(set)`),
the pending acquire callbacks per id (`pending_ref_callbacks`, a
`defaultdict(set)` of callback ids), and a counter allocating fresh object
identities for `_create`. -/
structure MgrState where
  objects_by_id : Nat → Option RCObject
  stopping_objects_by_id : Nat → Option (List RCObject)
  pending_ref_callbacks : Nat → Option (List Nat)
  next_iid : Nat

/-- The manager state at construction time: all maps empty. -/
def emptyMgr : MgrState :=
  { objects_by_id := fun _ => none
    stopping_objects_by_id := fun _ => none
    pending_ref_callbacks := fun _ => none
    next_iid := 0 }

/-- Observable calls the manager makes while processing one message: the
`_create` construction hook, `start()` together with `_on_object_started`, a
pending acquire callback being dispatched, and the `on_unreferenced` teardown
upcall. -/
inductive MEvent where
  | constructed (id iid : Nat)
  | started (id iid : Nat)
  | cbFired (cb id iid : Nat)
  | unreferenced (id iid : Nat)
deriving DecidableEq, Repr

/-- Messages a `ReferenceManager` can process.  `getAndIncref` carries an
`Option Nat` identifier so that the `assert object_id is not None` precondition
can be expressed; a stale upcall is represented by the `iid` of the object the
caller passed. -/
inductive MOp where
  | getAndIncref (id : Option Nat) (cb : Option Nat)
  | startupComplete (id iid : Nat)
  | decref (id : Nat)
  | cleanupComplete (id iid : Nat)
deriving DecidableEq, Repr

/-- ReferenceManager._maybe_start: start the current object for `obj_id` iff it
exists, is CREATED, and there is no entry for `obj_id` in
`stopping_objects_by_id`. -/
def maybe_start (σ : MgrState) (obj_id : Nat) : MgrState × List MEvent :=
  match σ.objects_by_id obj_id with
  | some obj =>
    if obj.ref_mgmt_state = RefState.CREATED ∧ σ.stopping_objects_by_id obj_id = none then
      let m := upd σ.objects_by_id obj_id (some { obj with ref_mgmt_state := RefState.STARTING })
      ({ σ with objects_by_id := m }, [MEvent.started obj_id obj.iid])
    else (σ, [])
  | none => (σ, [])

/-- ReferenceManager._maybe_notify_referrers: if the current object for
`object_id` is LIVE, dispatch every pending callback for `object_id` and pop
the pending entry. -/
def maybe_notify_referrers (σ : MgrState) (object_id : Nat) : MgrState × List MEvent :=
  match σ.objects_by_id object_id with
  | some obj =>
    if obj.ref_mgmt_state = RefState.LIVE then
      ({ σ with pending_ref_callbacks := upd σ.pending_ref_callbacks object_id none },
       ((σ.pending_ref_callbacks object_id).getD []).map
         (fun cb => MEvent.cbFired cb object_id obj.iid))
    else (σ, [])
  | none => (σ, [])

/-- ReferenceManager.get_and_incref for a non-null id: create the object if
absent (via `_create`, recording the construction), register the callback if
given, increment the ref count, then `_maybe_start` and
`_maybe_notify_referrers`. -/
def get_and_incref (σ : MgrState) (object_id : Nat) (callback : Option Nat) :
    MgrState × List MEvent :=
  let created :=
    match σ.objects_by_id object_id with
    | none =>
      let obj : RCObject := { iid := σ.next_iid, ref_count := 0,
                              ref_mgmt_state := RefState.CREATED }
      (({ σ with objects_by_id := upd σ.objects_by_id object_id (some obj),
                 next_iid := σ.next_iid + 1 } : MgrState), obj,
       [MEvent.constructed object_id obj.iid])
    | some obj => (σ, obj, [])
  let σ1 := created.1
  let obj := created.2.1
  let ev1 := created.2.2
  let σ2 :=
    match callback with
    | some cb =>
      let p := upd σ1.pending_ref_callbacks object_id
        (some (listInsert cb ((σ1.pending_ref_callbacks object_id).getD [])))
      { σ1 with pending_ref_callbacks := p }
    | none => σ1
  let m3 := upd σ2.objects_by_id object_id (some { obj with ref_count := obj.ref_count + 1 })
  let σ3 := { σ2 with objects_by_id := m3 }
  let r4 := maybe_start σ3 object_id
  let r5 := maybe_notify_referrers r4.1 object_id
  (r5.1, ev1 ++ r4.2 ++ r5.2)

/-- ReferenceManager.on_object_startup_complete: ignored unless the reporting
object is the current object for `object_id` and is STARTING; otherwise the
object becomes LIVE and referrers are notified. -/
def on_object_startup_complete (σ : MgrState) (object_id iid : Nat) :
    MgrState × List MEvent :=
  match σ.objects_by_id object_id with
  | some obj =>
    if obj.iid = iid then
      if obj.ref_mgmt_state = RefState.STARTING then
        let m := upd σ.objects_by_id object_id (some { obj with ref_mgmt_state := RefState.LIVE })
        maybe_notify_referrers { σ with objects_by_id := m } object_id
      else (σ, [])
    else (σ, [])
  | none => (σ, [])

/-- ReferenceManager.decref: asserts the id has a current object and that the
count does not drop below zero (`none` models the assertion failure).  On
reaching zero, a never-started CREATED object is discarded silently; otherwise
the object is marked STOPPING, moved into the draining set and its
`on_unreferenced` upcall is issued; either way the id is removed from
`objects_by_id` and pending callbacks for it are dropped. -/
def decref (σ : MgrState) (object_id : Nat) : Option (MgrState × List MEvent) :=
  match σ.objects_by_id object_id with
  | none => none
  | some obj =>
    let obj' : RCObject := { obj with ref_count := obj.ref_count - 1 }
    if obj'.ref_count < 0 then none
    else if obj'.ref_count = 0 then
      if obj'.ref_mgmt_state = RefState.CREATED then
        some ({ σ with objects_by_id := upd σ.objects_by_id object_id none,
                       pending_ref_callbacks := upd σ.pending_ref_callbacks object_id none },
              [])
      else
        let obj'' : RCObject := { obj' with ref_mgmt_state := RefState.STOPPING }
        let st := upd σ.stopping_objects_by_id object_id
          (some (objInsert obj'' ((σ.stopping_objects_by_id object_id).getD [])))
        some ({ σ with
                objects_by_id := upd σ.objects_by_id object_id none,
                stopping_objects_by_id := st,
                pending_ref_callbacks := upd σ.pending_ref_callbacks object_id none },
              [MEvent.unreferenced object_id obj''.iid])
    else
      some ({ σ with objects_by_id := upd σ.objects_by_id object_id (some obj') }, [])

/-- ReferenceManager.on_object_cleanup_complete: discard the reporting object
from the draining set for `object_id` (a `defaultdict` access, so a missing
entry behaves as empty); if the set is now empty, delete the entry and
re-attempt `_maybe_start` for the id. -/
def on_object_cleanup_complete (σ : MgrState) (object_id iid : Nat) :
    MgrState × List MEvent :=
  let s' := objDiscard iid ((σ.stopping_objects_by_id object_id).getD [])
  if s' = [] then
    maybe_start
      { σ with stopping_objects_by_id := upd σ.stopping_objects_by_id object_id none }
      object_id
  else
    ({ σ with stopping_objects_by_id := upd σ.stopping_objects_by_id object_id (some s') },
     [])

/-- One message processed by the manager; `none` models a fatal assertion
failure (`assert object_id is not None` in get_and_incref, and the two asserts
in decref). -/
def mgrStep (σ : MgrState) : MOp → Option (MgrState × List MEvent)
  | MOp.getAndIncref none _ => none
  | MOp.getAndIncref (some id) cb => some (get_and_incref σ id cb)
  | MOp.startupComplete id iid => some (on_object_startup_complete σ id iid)
  | MOp.decref id => decref σ id
  | MOp.cleanupComplete id iid => some (on_object_cleanup_complete σ id iid)

/-- Run a sequence of messages from a given state, accumulating the emitted
events; fails if any message hits an assertion. -/
def mgrRunFrom (σ : MgrState) : List MOp → Option (MgrState × List MEvent)
  | [] => some (σ, [])
  | op :: ops =>
    match mgrStep σ op with
    | none => none
    | some (σ', evs) =>
      match mgrRunFrom σ' ops with
      | none => none
      | some (σ'', evs') => some (σ'', evs ++ evs')

/-- The state a single step leads to, if the step does not hit an assertion. -/
def stepState (σ : MgrState) (op : MOp) : Option MgrState :=
  (mgrStep σ op).map Prod.fst

/-- The events a single step emits (empty if the step hits an assertion). -/
def stepEvents (σ : MgrState) (op : MOp) : List MEvent :=
  ((mgrStep σ op).map Prod.snd).getD []

/-- The manager state reached by running a trace from the initial state
(defaulting to the initial state on assertion failure). -/
def finalState (tr : List MOp) : MgrState :=
  ((mgrRunFrom emptyMgr tr).map Prod.fst).getD emptyMgr

/-- Number of acquire messages for a given identifier in a trace. -/
def countAcq : List MOp → Nat → Nat
  | [], _ => 0
  | MOp.getAndIncref (some i) _ :: rest, id =>
    (if i = id then 1 else 0) + countAcq rest id
  | _ :: rest, id => countAcq rest id

/-- Number of release messages for a given identifier in a trace. -/
def countDec : List MOp → Nat → Nat
  | [], _ => 0
  | MOp.decref i :: rest, id => (if i = id then 1 else 0) + countDec rest id
  | _ :: rest, id => countDec rest id

/-- Reference count of the current object for an id, 0 if there is none. -/
def rcOf (σ : MgrState) (id : Nat) : Int :=
  match σ.objects_by_id id with
  | some obj => obj.ref_count
  | none => 0

/-- Python `set.discard` / `set.remove` for sets of ids modelled as lists. -/
def listRemove (x : Nat) (l : List Nat) : List Nat :=
  l.filter (fun y => y != x)

/-- Python `dict.pop(k, None)` for the helper's acquired map. -/
def dictPop (k : Nat) (l : List (Nat × Nat)) : List (Nat × Nat) :=
  l.filter (fun p => p.1 != k)

/-- Python `d[k] = v` for the helper's acquired map, keeping key order. -/
def dictInsert (k v : Nat) (l : List (Nat × Nat)) : List (Nat × Nat) :=
  if l.any (fun p => p.1 == k) then l.map (fun p => if p.1 = k then (k, v) else p)
  else l ++ [(k, v)]

/-- State of a `RefHelper`: the ids the consumer requires, the ids with an
outstanding incref request, and the map from acquired id to the acquired
object (values are `iid`s of manager objects). -/
structure HelperState where
  required_refs : List Nat
  pending_increfs : List Nat
  acquired_refs : List (Nat × Nat)
deriving DecidableEq, Repr

/-- The helper state at construction time. -/
def emptyHelper : HelperState :=
  { required_refs := [], pending_increfs := [], acquired_refs := [] }

/-- RefHelper.ready: the source compares the sizes of `required_refs` and
`acquired_refs`, not their membership. -/
def ready (h : HelperState) : Bool :=
  h.required_refs.length == h.acquired_refs.length

/-- Observable calls the helper makes: a `get_and_incref` request, a `decref`
request, and the invocation of its ready callback. -/
inductive HEvent where
  | increfSent (id : Nat)
  | decrefSent (id : Nat)
  | readyFired
deriving DecidableEq, Repr

/-- Messages processed by a helper; `onRefAcquired` carries the acquired
object's identity. -/
inductive HOp where
  | acquireRef (id : Nat)
  | discardRef (id : Nat)
  | discardAll
  | onRefAcquired (id : Nat) (obj : Nat)
deriving DecidableEq, Repr

/-- RefHelper.acquire_ref: idempotent registration of interest, issuing at most
one incref request while one is already outstanding. -/
def acquire_ref (h : HelperState) (obj_id : Nat) : HelperState × List HEvent :=
  if obj_id ∈ h.required_refs then (h, [])
  else
    let h1 := { h with required_refs := listInsert obj_id h.required_refs }
    if obj_id ∈ h1.pending_increfs then (h1, [])
    else
      ({ h1 with pending_increfs := listInsert obj_id h1.pending_increfs },
       [HEvent.increfSent obj_id])

/-- RefHelper.discard_ref: idempotent discard; the decref is issued immediately
only when no incref is outstanding, otherwise it is deferred to
`on_ref_acquired`. -/
def discard_ref (h : HelperState) (obj_id : Nat) : HelperState × List HEvent :=
  if obj_id ∈ h.required_refs then
    let h1 := { h with required_refs := listRemove obj_id h.required_refs,
                       acquired_refs := dictPop obj_id h.acquired_refs }
    if obj_id ∈ h1.pending_increfs then (h1, [])
    else (h1, [HEvent.decrefSent obj_id])
  else (h, [])

/-- Iterating `discard_ref` over a snapshot list of ids. -/
def discardList : List Nat → HelperState → HelperState × List HEvent
  | [], h => (h, [])
  | id :: rest, h =>
    let r1 := discard_ref h id
    let r2 := discardList rest r1.1
    (r2.1, r1.2 ++ r2.2)

/-- RefHelper.discard_all: discard every required id, iterating over a snapshot
of `required_refs`. -/
def discard_all (h : HelperState) : HelperState × List HEvent :=
  discardList h.required_refs h

/-- RefHelper.on_ref_acquired: clear the outstanding incref, record the object
if still required or decref it if it was discarded while in flight, and fire
the ready callback when readiness transitioned from false to true. -/
def on_ref_acquired (h : HelperState) (obj_id obj : Nat) : HelperState × List HEvent :=
  let was_ready := ready h
  let h1 := { h with pending_increfs := listRemove obj_id h.pending_increfs }
  let r2 :=
    if obj_id ∈ h1.required_refs then
      (({ h1 with acquired_refs := dictInsert obj_id obj h1.acquired_refs } : HelperState), [])
    else (h1, [HEvent.decrefSent obj_id])
  let now_ready := ready r2.1
  if !was_ready && now_ready then (r2.1, r2.2 ++ [HEvent.readyFired])
  else (r2.1, r2.2)

/-- One message processed by the helper. -/
def helperStep (h : HelperState) : HOp → HelperState × List HEvent
  | HOp.acquireRef id => acquire_ref h id
  | HOp.discardRef id => discard_ref h id
  | HOp.discardAll => discard_all h
  | HOp.onRefAcquired id obj => on_ref_acquired h id obj

/-- Run a sequence of messages on a helper from a given state. -/
def helperRunFrom (h : HelperState) : List HOp → HelperState × List HEvent
  | [] => (h, [])
  | op :: ops =>
    let r1 := helperStep h op
    let r2 := helperRunFrom r1.1 ops
    (r2.1, r1.2 ++ r2.2)

/-- Run a sequence of messages on a fresh helper. -/
def helperRun (tr : List HOp) : HelperState × List HEvent :=
  helperRunFrom emptyHelper tr

/-- The helper state reached by a trace from a fresh helper. -/
def hFinal (tr : List HOp) : HelperState :=
  (helperRun tr).1

/-- Key list of the helper's acquired map. -/
def dictKeys (l : List (Nat × Nat)) : List Nat :=
  l.map Prod.fst

/-- The manager state after `_maybe_start` actually starts `obj` for id `j`. -/
def startedState (σ : MgrState) (j : Nat) (obj : RCObject) : MgrState :=
  { σ with objects_by_id := upd σ.objects_by_id j (some { obj with ref_mgmt_state := RefState.STARTING }) }

/-- The manager state after `_maybe_notify_referrers` pops the pending entry for `j`. -/
def notifiedState (σ : MgrState) (j : Nat) : MgrState :=
  { σ with pending_ref_callbacks := upd σ.pending_ref_callbacks j none }

/-- Invariants that hold in every reachable manager state: pending callback
sets are duplicate-free; every entry of `stopping_objects_by_id` is a
non-empty set (empty entries are always deleted); a current object still in
CREATED can only be waiting for a draining predecessor; and every current
object has a strictly positive reference count. -/
structure MInv (σ : MgrState) : Prop where
  pending_nodup : ∀ id l, σ.pending_ref_callbacks id = some l → l.Nodup
  stopping_ne_nil : ∀ id l, σ.stopping_objects_by_id id = some l → l ≠ []
  created_draining : ∀ id obj, σ.objects_by_id id = some obj →
    obj.ref_mgmt_state = RefState.CREATED → σ.stopping_objects_by_id id ≠ none
  rc_pos : ∀ id obj, σ.objects_by_id id = some obj → 1 ≤ obj.ref_count

/-- Number of acquires for `id` performed by a single message. -/
def opAcq : MOp → Nat → Nat
  | MOp.getAndIncref (some i) _, id => if i = id then 1 else 0
  | _, _ => 0

/-- Number of releases for `id` performed by a single message. -/
def opDec : MOp → Nat → Nat
  | MOp.decref i, id => if i = id then 1 else 0
  | _, _ => 0

/-- Invariants that hold in every reachable helper state: the three
collections are duplicate-free and the key set of `acquired_refs` is contained
in `required_refs`. -/
structure HInv (h : HelperState) : Prop where
  required_nodup : h.required_refs.Nodup
  pending_nodup : h.pending_increfs.Nodup
  keys_nodup : (dictKeys h.acquired_refs).Nodup
  keys_sub : ∀ k, k ∈ dictKeys h.acquired_refs → k ∈ h.required_refs

/-- A trace that leaves the first generation of id 0 draining: acquire,
startup complete, release to zero. -/
def overlapTrace : List MOp :=
  [MOp.getAndIncref (some 0) none, MOp.startupComplete 0 0, MOp.decref 0]

/-- The manager state reached by `overlapTrace`. -/
def overlapState : MgrState :=
  finalState overlapTrace

/-- The object `get_and_incref` operates on: the existing current object, or
the freshly constructed one. -/
def gaiObj (σ : MgrState) (object_id : Nat) : RCObject :=
  match σ.objects_by_id object_id with
  | none => { iid := σ.next_iid, ref_count := 0, ref_mgmt_state := RefState.CREATED }
  | some obj => obj

/-- The manager state in the middle of `get_and_incref`, after creation,
callback registration and the increment, before `_maybe_start`. -/
def gaiMid (σ : MgrState) (object_id : Nat) (callback : Option Nat) : MgrState :=
  let ob := upd σ.objects_by_id object_id (some { gaiObj σ object_id with ref_count := (gaiObj σ object_id).ref_count + 1 })
  let pend :=
    match callback with
    | some c => upd σ.pending_ref_callbacks object_id (some (listInsert c ((σ.pending_ref_callbacks object_id).getD [])))
    | none => σ.pending_ref_callbacks
  let nxt :=
    match σ.objects_by_id object_id with
    | none => σ.next_iid + 1
    | some _ => σ.next_iid
  { objects_by_id := ob
    stopping_objects_by_id := σ.stopping_objects_by_id
    pending_ref_callbacks := pend
    next_iid := nxt }

/-- The construction event of `get_and_incref`, if any. -/
def gaiEv1 (σ : MgrState) (object_id : Nat) : List MEvent :=
  match σ.objects_by_id object_id with
  | none => [MEvent.constructed object_id σ.next_iid]
  | some _ => []

/-- The manager state after `on_object_startup_complete` marks `obj` LIVE,
before referrers are notified. -/
def liveState (σ : MgrState) (id : Nat) (obj : RCObject) : MgrState :=
  { σ with objects_by_id := upd σ.objects_by_id id (some { obj with ref_mgmt_state := RefState.LIVE }) }

/-- The manager state after `decref` discards a never-started object. -/
def discardState (σ : MgrState) (id : Nat) : MgrState :=
  { σ with objects_by_id := upd σ.objects_by_id id none,
           pending_ref_callbacks := upd σ.pending_ref_callbacks id none }

/-- The manager state after `decref` moves a started object into the draining
set, marked STOPPING with its count at zero. -/
def drainState (σ : MgrState) (id : Nat) (obj : RCObject) : MgrState :=
  let stopped : RCObject := { obj with ref_count := 0, ref_mgmt_state := RefState.STOPPING }
  let st := upd σ.stopping_objects_by_id id (some (objInsert stopped ((σ.stopping_objects_by_id id).getD [])))
  { σ with objects_by_id := upd σ.objects_by_id id none,
           stopping_objects_by_id := st,
           pending_ref_callbacks := upd σ.pending_ref_callbacks id none }

/-- The manager state after `decref` merely decrements a count that stays
positive. -/
def keepState (σ : MgrState) (id : Nat) (obj : RCObject) : MgrState :=
  { σ with objects_by_id := upd σ.objects_by_id id (some { obj with ref_count := obj.ref_count - 1 }) }

/-- The manager state after `on_object_cleanup_complete` deletes an emptied
draining entry. -/
def clearState (σ : MgrState) (id : Nat) : MgrState :=
  { σ with stopping_objects_by_id := upd σ.stopping_objects_by_id id none }

/-- The manager state after `on_object_cleanup_complete` shrinks a draining
entry that remains non-empty. -/
def keepDrainState (σ : MgrState) (id iid : Nat) : MgrState :=
  let st := upd σ.stopping_objects_by_id id (some (objDiscard iid ((σ.stopping_objects_by_id id).getD [])))
  { σ with stopping_objects_by_id := st }


/-- The helper state and events in the middle of `on_ref_acquired`, before the
readiness transition is checked. -/
def oraMid (h : HelperState) (obj_id obj : Nat) : HelperState × List HEvent :=
  let h1 := { h with pending_increfs := listRemove obj_id h.pending_increfs }
  if obj_id ∈ h1.required_refs then
    (({ h1 with acquired_refs := dictInsert obj_id obj h1.acquired_refs } : HelperState), [])
  else (h1, [HEvent.decrefSent obj_id])

/-- A concrete manager state with a CREATED current object for id 0 waiting on
one draining predecessor. -/
def drainingCreatedState : MgrState :=
  { objects_by_id := fun i => if i = 0 then some { iid := 0, ref_count := 1, ref_mgmt_state := RefState.CREATED } else none
    stopping_objects_by_id := fun i => if i = 0 then some [{ iid := 5, ref_count := 0, ref_mgmt_state := RefState.STOPPING }] else none
    pending_ref_callbacks := fun _ => none
    next_iid := 6 }

/-- A concrete manager state with a LIVE object for id 0 held by one referrer. -/
def liveOneRefState : MgrState :=
  { objects_by_id := fun i => if i = 0 then some { iid := 0, ref_count := 1, ref_mgmt_state := RefState.LIVE } else none
    stopping_objects_by_id := fun _ => none
    pending_ref_callbacks := fun _ => none
    next_iid := 1 }

/-- A trace that leaves id 0 STARTING with callback 7 pending. -/
def liveFlushTrace : List MOp :=
  [MOp.getAndIncref (some 0) (some 7)]

theorem upd_apply {α : Type} (f : Nat → Option α) (k : Nat) (v : Option α) (i : Nat) :
    upd f k v i = if i = k then v else f i := rfl

theorem upd_self {α : Type} (f : Nat → Option α) (k : Nat) : upd f k (f k) = f := by
  funext i
  unfold upd
  split
  · subst i
    rfl
  · rfl

theorem listInsert_nodup (x : Nat) (l : List Nat) (h : l.Nodup) : (listInsert x l).Nodup := by
  unfold listInsert
  split
  · exact h
  · exact List.nodup_cons.mpr ⟨by assumption, h⟩

theorem mem_listInsert_self (x : Nat) (l : List Nat) : x ∈ listInsert x l := by
  unfold listInsert
  split
  · assumption
  · exact List.mem_cons_self x l

theorem objInsert_ne_nil (o : RCObject) (l : List RCObject) : objInsert o l ≠ [] := by
  unfold objInsert
  split
  · intro h
    subst h
    simp at *
  · simp

theorem mem_listRemove (x y : Nat) (l : List Nat) :
    y ∈ listRemove x l ↔ y ∈ l ∧ y ≠ x := by
  unfold listRemove
  simp [List.mem_filter]

theorem listRemove_nodup (x : Nat) (l : List Nat) (h : l.Nodup) : (listRemove x l).Nodup :=
  h.filter _

theorem mem_dictKeys_dictPop (k x : Nat) (l : List (Nat × Nat)) :
    x ∈ dictKeys (dictPop k l) ↔ x ∈ dictKeys l ∧ x ≠ k := by
  unfold dictKeys dictPop
  simp [List.mem_filter, List.mem_map]

theorem dictKeys_dictPop_nodup (k : Nat) (l : List (Nat × Nat))
    (h : (dictKeys l).Nodup) : (dictKeys (dictPop k l)).Nodup := by
  unfold dictKeys dictPop
  rw [show (fun p : Nat × Nat => p.1 != k) = ((fun x => x != k) ∘ Prod.fst) from rfl]
  rw [← List.filter_map]
  exact h.filter _

theorem dictKeys_dictInsert (k v : Nat) (l : List (Nat × Nat)) :
    dictKeys (dictInsert k v l) =
      if l.any (fun p => p.1 == k) then dictKeys l else dictKeys l ++ [k] := by
  unfold dictKeys dictInsert
  split
  · simp only [List.map_map]
    apply List.map_congr_left
    intro p _
    simp only [Function.comp]
    split
    · simp [*]
    · rfl
  · simp

theorem any_key_iff_mem (k : Nat) (l : List (Nat × Nat)) :
    (l.any (fun p => p.1 == k) = true) ↔ k ∈ dictKeys l := by
  unfold dictKeys
  simp [List.any_eq_true, List.mem_map]

/-- Complete case analysis of `_maybe_start`: either the start condition fails
and nothing happens, or the CREATED current object is started. -/
theorem maybe_start_cases (σ : MgrState) (j : Nat) :
    (maybe_start σ j = (σ, []) ∧
      ∀ obj, σ.objects_by_id j = some obj →
        ¬(obj.ref_mgmt_state = RefState.CREATED ∧ σ.stopping_objects_by_id j = none)) ∨
    (∃ obj, σ.objects_by_id j = some obj ∧ obj.ref_mgmt_state = RefState.CREATED ∧
      σ.stopping_objects_by_id j = none ∧
      maybe_start σ j = (startedState σ j obj, [MEvent.started j obj.iid])) := by
  unfold maybe_start
  split
  next obj hm =>
    split
    next hc =>
      right
      exact ⟨obj, hm, hc.1, hc.2, rfl⟩
    next hc =>
      left
      refine ⟨rfl, ?_⟩
      intro obj' h
      rw [hm] at h
      injection h with h
      subst h
      exact hc
  next hm =>
    left
    refine ⟨rfl, ?_⟩
    intro obj h
    rw [hm] at h
    exact Option.noConfusion h

/-- Complete case analysis of `_maybe_notify_referrers`: either the current
object is not LIVE (or absent) and nothing happens, or all pending callbacks
for the id are dispatched and the pending entry is popped. -/
theorem maybe_notify_cases (σ : MgrState) (j : Nat) :
    (maybe_notify_referrers σ j = (σ, []) ∧
      ∀ obj, σ.objects_by_id j = some obj → obj.ref_mgmt_state ≠ RefState.LIVE) ∨
    (∃ obj, σ.objects_by_id j = some obj ∧ obj.ref_mgmt_state = RefState.LIVE ∧
      maybe_notify_referrers σ j =
        (notifiedState σ j,
         ((σ.pending_ref_callbacks j).getD []).map (fun cb => MEvent.cbFired cb j obj.iid))) := by
  unfold maybe_notify_referrers
  split
  next obj hm =>
    split
    next hc =>
      right
      exact ⟨obj, hm, hc, rfl⟩
    next hc =>
      left
      refine ⟨rfl, ?_⟩
      intro obj' h
      rw [hm] at h
      injection h with h
      subst h
      exact hc
  next hm =>
    left
    refine ⟨rfl, ?_⟩
    intro obj h
    rw [hm] at h
    exact Option.noConfusion h

theorem MgrState.ext' (σ1 σ2 : MgrState)
    (h1 : σ1.objects_by_id = σ2.objects_by_id)
    (h2 : σ1.stopping_objects_by_id = σ2.stopping_objects_by_id)
    (h3 : σ1.pending_ref_callbacks = σ2.pending_ref_callbacks)
    (h4 : σ1.next_iid = σ2.next_iid) : σ1 = σ2 := by
  cases σ1
  cases σ2
  simp_all

theorem maybe_start_stopping (σ : MgrState) (j : Nat) :
    (maybe_start σ j).1.stopping_objects_by_id = σ.stopping_objects_by_id := by
  rcases maybe_start_cases σ j with ⟨h, _⟩ | ⟨obj, _, _, _, h⟩ <;> rw [h] <;> rfl

theorem maybe_start_pending (σ : MgrState) (j : Nat) :
    (maybe_start σ j).1.pending_ref_callbacks = σ.pending_ref_callbacks := by
  rcases maybe_start_cases σ j with ⟨h, _⟩ | ⟨obj, _, _, _, h⟩ <;> rw [h] <;> rfl

theorem maybe_start_next (σ : MgrState) (j : Nat) :
    (maybe_start σ j).1.next_iid = σ.next_iid := by
  rcases maybe_start_cases σ j with ⟨h, _⟩ | ⟨obj, _, _, _, h⟩ <;> rw [h] <;> rfl

theorem maybe_start_objects_back (σ : MgrState) (j i : Nat) (obj' : RCObject)
    (h : (maybe_start σ j).1.objects_by_id i = some obj') :
    σ.objects_by_id i = some obj' ∨
      (i = j ∧ ∃ obj, σ.objects_by_id j = some obj ∧
        obj.ref_mgmt_state = RefState.CREATED ∧ σ.stopping_objects_by_id j = none ∧
        obj' = { obj with ref_mgmt_state := RefState.STARTING }) := by
  rcases maybe_start_cases σ j with ⟨he, _⟩ | ⟨obj, hm, hc, hs, he⟩
  · rw [he] at h
    exact Or.inl h
  · rw [he] at h
    by_cases hij : i = j
    · subst hij
      simp only [startedState, upd_apply, if_pos rfl] at h
      injection h with h
      right
      exact ⟨rfl, obj, hm, hc, hs, h.symm⟩
    · left
      simpa only [startedState, upd_apply, if_neg hij] using h

theorem maybe_start_objects_ne (σ : MgrState) (j i : Nat) (hij : i ≠ j) :
    (maybe_start σ j).1.objects_by_id i = σ.objects_by_id i := by
  rcases maybe_start_cases σ j with ⟨h, _⟩ | ⟨obj, _, _, _, h⟩
  · rw [h]
  · rw [h]
    simp only [startedState, upd_apply, if_neg hij]

theorem maybe_start_rcOf (σ : MgrState) (j i : Nat) :
    rcOf (maybe_start σ j).1 i = rcOf σ i := by
  rcases maybe_start_cases σ j with ⟨h, _⟩ | ⟨obj, hm, _, _, h⟩
  · rw [h]
  · rw [h]
    unfold rcOf
    by_cases hij : i = j
    · subst hij
      simp [startedState, upd_apply, hm]
    · simp only [startedState, upd_apply, if_neg hij]

theorem maybe_notify_objects (σ : MgrState) (j : Nat) :
    (maybe_notify_referrers σ j).1.objects_by_id = σ.objects_by_id := by
  rcases maybe_notify_cases σ j with ⟨h, _⟩ | ⟨obj, _, _, h⟩ <;> rw [h] <;> rfl

theorem maybe_notify_stopping (σ : MgrState) (j : Nat) :
    (maybe_notify_referrers σ j).1.stopping_objects_by_id = σ.stopping_objects_by_id := by
  rcases maybe_notify_cases σ j with ⟨h, _⟩ | ⟨obj, _, _, h⟩ <;> rw [h] <;> rfl

theorem maybe_notify_next (σ : MgrState) (j : Nat) :
    (maybe_notify_referrers σ j).1.next_iid = σ.next_iid := by
  rcases maybe_notify_cases σ j with ⟨h, _⟩ | ⟨obj, _, _, h⟩ <;> rw [h] <;> rfl

theorem maybe_notify_pending_back (σ : MgrState) (j i : Nat) (l : List Nat)
    (h : (maybe_notify_referrers σ j).1.pending_ref_callbacks i = some l) :
    σ.pending_ref_callbacks i = some l := by
  rcases maybe_notify_cases σ j with ⟨he, _⟩ | ⟨obj, _, _, he⟩ <;> rw [he] at h
  · exact h
  · by_cases hij : i = j
    · subst hij
      simp only [notifiedState, upd_apply, if_pos rfl] at h
      exact Option.noConfusion h
    · simpa only [notifiedState, upd_apply, if_neg hij] using h

theorem maybe_notify_rcOf (σ : MgrState) (j i : Nat) :
    rcOf (maybe_notify_referrers σ j).1 i = rcOf σ i := by
  unfold rcOf
  rw [maybe_notify_objects]

theorem MInv_maybe_start (σ : MgrState) (j : Nat) (hI : MInv σ) : MInv (maybe_start σ j).1 := by
  constructor
  · intro id l h
    rw [maybe_start_pending] at h
    exact hI.pending_nodup id l h
  · intro id l h
    rw [maybe_start_stopping] at h
    exact hI.stopping_ne_nil id l h
  · intro id obj h hc
    rw [maybe_start_stopping]
    rcases maybe_start_objects_back σ j id obj h with h' | ⟨heq, obj0, hm, hc0, hs, hobj⟩
    · exact hI.created_draining id obj h' hc
    · subst hobj
      exact absurd hc (by intro h2; exact RefState.noConfusion h2)
  · intro id obj h
    rcases maybe_start_objects_back σ j id obj h with h' | ⟨heq, obj0, hm, hc0, hs, hobj⟩
    · exact hI.rc_pos id obj h'
    · subst hobj
      exact hI.rc_pos j obj0 hm

theorem MInv_maybe_notify (σ : MgrState) (j : Nat) (hI : MInv σ) :
    MInv (maybe_notify_referrers σ j).1 := by
  constructor
  · intro id l h
    exact hI.pending_nodup id l (maybe_notify_pending_back σ j id l h)
  · intro id l h
    rw [maybe_notify_stopping] at h
    exact hI.stopping_ne_nil id l h
  · intro id obj h hc
    rw [maybe_notify_objects] at h
    rw [maybe_notify_stopping]
    exact hI.created_draining id obj h hc
  · intro id obj h
    rw [maybe_notify_objects] at h
    exact hI.rc_pos id obj h

theorem upd_upd {α : Type} (f : Nat → Option α) (k : Nat) (a b : Option α) :
    upd (upd f k a) k b = upd f k b := by
  funext i
  unfold upd
  by_cases h : i = k
  · simp [h]
  · simp [h]

/-- Decomposition of `get_and_incref` into its mid-state followed by
`_maybe_start` and `_maybe_notify_referrers`. -/
theorem get_and_incref_eq (σ : MgrState) (id : Nat) (cb : Option Nat) :
    get_and_incref σ id cb =
      ((maybe_notify_referrers (maybe_start (gaiMid σ id cb) id).1 id).1,
       gaiEv1 σ id ++ (maybe_start (gaiMid σ id cb) id).2 ++
         (maybe_notify_referrers (maybe_start (gaiMid σ id cb) id).1 id).2) := by
  unfold get_and_incref gaiMid gaiEv1 gaiObj
  cases hm : σ.objects_by_id id <;> cases cb <;> dsimp only <;> rw [upd_upd]

/-- Complete case analysis of `on_object_startup_complete`. -/
theorem startup_cases (σ : MgrState) (id iid : Nat) :
    (on_object_startup_complete σ id iid = (σ, []) ∧
      ∀ obj, σ.objects_by_id id = some obj → obj.iid = iid →
        obj.ref_mgmt_state ≠ RefState.STARTING) ∨
    (∃ obj, σ.objects_by_id id = some obj ∧ obj.iid = iid ∧
      obj.ref_mgmt_state = RefState.STARTING ∧
      on_object_startup_complete σ id iid = maybe_notify_referrers (liveState σ id obj) id) := by
  unfold on_object_startup_complete
  split
  next obj hm =>
    split
    next hiid =>
      split
      next hst =>
        right
        exact ⟨obj, hm, hiid, hst, rfl⟩
      next hst =>
        left
        refine ⟨rfl, ?_⟩
        intro obj' h hiid'
        rw [hm] at h
        injection h with h
        subst h
        exact hst
    next hiid =>
      left
      refine ⟨rfl, ?_⟩
      intro obj' h hiid'
      rw [hm] at h
      injection h with h
      subst h
      exact absurd hiid' hiid
  next hm =>
    left
    refine ⟨rfl, ?_⟩
    intro obj h
    rw [hm] at h
    exact Option.noConfusion h

/-- Complete case analysis of `decref`. -/
theorem decref_cases (σ : MgrState) (id : Nat) :
    (σ.objects_by_id id = none ∧ decref σ id = none) ∨
    (∃ obj, σ.objects_by_id id = some obj ∧
      ((obj.ref_count - 1 < 0 ∧ decref σ id = none) ∨
       (obj.ref_count - 1 = 0 ∧ obj.ref_mgmt_state = RefState.CREATED ∧
         decref σ id = some (discardState σ id, [])) ∨
       (obj.ref_count - 1 = 0 ∧ obj.ref_mgmt_state ≠ RefState.CREATED ∧
         decref σ id = some (drainState σ id obj, [MEvent.unreferenced id obj.iid])) ∨
       (¬obj.ref_count - 1 < 0 ∧ obj.ref_count - 1 ≠ 0 ∧
         decref σ id = some (keepState σ id obj, [])))) := by
  unfold decref
  split
  next hm => exact Or.inl ⟨hm, rfl⟩
  next obj hm =>
    right
    refine ⟨obj, hm, ?_⟩
    dsimp only
    split
    next hneg => exact Or.inl ⟨hneg, rfl⟩
    next hneg =>
      split
      next hzero =>
        split
        next hcreated => exact Or.inr (Or.inl ⟨hzero, hcreated, rfl⟩)
        next hcreated =>
          refine Or.inr (Or.inr (Or.inl ⟨hzero, hcreated, ?_⟩))
          unfold drainState
          rw [hzero]
      next hzero => exact Or.inr (Or.inr (Or.inr ⟨hneg, hzero, rfl⟩))

/-- Complete case analysis of `on_object_cleanup_complete`. -/
theorem cleanup_cases (σ : MgrState) (id iid : Nat) :
    (objDiscard iid ((σ.stopping_objects_by_id id).getD []) = [] ∧
      on_object_cleanup_complete σ id iid = maybe_start (clearState σ id) id) ∨
    (objDiscard iid ((σ.stopping_objects_by_id id).getD []) ≠ [] ∧
      on_object_cleanup_complete σ id iid = (keepDrainState σ id iid, [])) := by
  unfold on_object_cleanup_complete
  dsimp only
  split
  next h => exact Or.inl ⟨h, rfl⟩
  next h => exact Or.inr ⟨h, rfl⟩

theorem gaiMid_stopping (σ : MgrState) (id : Nat) (cb : Option Nat) :
    (gaiMid σ id cb).stopping_objects_by_id = σ.stopping_objects_by_id := rfl

theorem gaiMid_objects_ne (σ : MgrState) (id : Nat) (cb : Option Nat) (i : Nat) (hii : i ≠ id) :
    (gaiMid σ id cb).objects_by_id i = σ.objects_by_id i := by
  unfold gaiMid
  dsimp only
  rw [upd_apply, if_neg hii]

theorem gaiMid_objects_self (σ : MgrState) (id : Nat) (cb : Option Nat) :
    (gaiMid σ id cb).objects_by_id id =
      some { gaiObj σ id with ref_count := (gaiObj σ id).ref_count + 1 } := by
  unfold gaiMid
  dsimp only
  rw [upd_apply, if_pos rfl]

theorem gaiMid_pending_nodup (σ : MgrState) (id : Nat) (cb : Option Nat)
    (hp : ∀ i l, σ.pending_ref_callbacks i = some l → l.Nodup) :
    ∀ i l, (gaiMid σ id cb).pending_ref_callbacks i = some l → l.Nodup := by
  intro i l h
  unfold gaiMid at h
  dsimp only at h
  cases cb with
  | none => exact hp i l h
  | some c =>
    dsimp only at h
    rw [upd_apply] at h
    by_cases hii : i = id
    · rw [if_pos hii] at h
      injection h with h
      subst h
      apply listInsert_nodup
      cases hσ : σ.pending_ref_callbacks id with
      | none => simp [hσ]
      | some l' => simpa [hσ] using hp id l' hσ
    · rw [if_neg hii] at h
      exact hp i l h

theorem gaiMid_rc_pos (σ : MgrState) (id : Nat) (cb : Option Nat)
    (hp : ∀ i obj, σ.objects_by_id i = some obj → 1 ≤ obj.ref_count) :
    ∀ i obj, (gaiMid σ id cb).objects_by_id i = some obj → 1 ≤ obj.ref_count := by
  intro i obj h
  by_cases hii : i = id
  · subst hii
    rw [gaiMid_objects_self] at h
    injection h with h
    subst h
    unfold gaiObj
    cases hm : σ.objects_by_id i with
    | none => simp
    | some o =>
      have := hp i o hm
      dsimp only
      omega
  · rw [gaiMid_objects_ne σ id cb i hii] at h
    exact hp i obj h

theorem rcOf_gaiMid (σ : MgrState) (id : Nat) (cb : Option Nat) (i : Nat) :
    rcOf (gaiMid σ id cb) i = if i = id then rcOf σ i + 1 else rcOf σ i := by
  unfold rcOf
  by_cases hii : i = id
  · subst hii
    rw [gaiMid_objects_self, if_pos rfl]
    unfold gaiObj
    cases hm : σ.objects_by_id i <;> simp
  · rw [gaiMid_objects_ne σ id cb i hii, if_neg hii]

theorem MInv_get_and_incref (σ : MgrState) (id : Nat) (cb : Option Nat) (hI : MInv σ) :
    MInv (get_and_incref σ id cb).1 := by
  rw [get_and_incref_eq]
  dsimp only
  constructor
  · intro i l h
    have h2 := maybe_notify_pending_back _ _ _ _ h
    rw [maybe_start_pending] at h2
    exact gaiMid_pending_nodup σ id cb hI.pending_nodup i l h2
  · intro i l h
    rw [maybe_notify_stopping, maybe_start_stopping] at h
    exact hI.stopping_ne_nil i l h
  · intro i obj h hc
    rw [maybe_notify_objects] at h
    rw [maybe_notify_stopping, maybe_start_stopping, gaiMid_stopping]
    rcases maybe_start_cases (gaiMid σ id cb) id with ⟨he, hng⟩ | ⟨obj0, hm0, hc0, hs0, he⟩
    · rw [he] at h
      by_cases hii : i = id
      · subst hii
        intro hn
        exact hng obj h ⟨hc, hn⟩
      · rw [gaiMid_objects_ne σ id cb i hii] at h
        exact hI.created_draining i obj h hc
    · rw [he] at h
      by_cases hii : i = id
      · subst hii
        simp only [startedState, upd_apply, if_pos rfl] at h
        injection h with h
        rw [← h] at hc
        exact absurd hc (by intro h2; exact RefState.noConfusion h2)
      · simp only [startedState, upd_apply, if_neg hii] at h
        rw [gaiMid_objects_ne σ id cb i hii] at h
        exact hI.created_draining i obj h hc
  · intro i obj h
    rw [maybe_notify_objects] at h
    rcases maybe_start_objects_back (gaiMid σ id cb) id i obj h with h' | ⟨heq, obj0, hm0, hc0, hs0, hobj⟩
    · exact gaiMid_rc_pos σ id cb hI.rc_pos i obj h'
    · subst hobj
      exact gaiMid_rc_pos σ id cb hI.rc_pos id obj0 hm0

theorem liveState_objects_ne (σ : MgrState) (id : Nat) (obj : RCObject) (i : Nat)
    (hii : i ≠ id) : (liveState σ id obj).objects_by_id i = σ.objects_by_id i := by
  unfold liveState
  dsimp only
  rw [upd_apply, if_neg hii]

theorem liveState_objects_self (σ : MgrState) (id : Nat) (obj : RCObject) :
    (liveState σ id obj).objects_by_id id = some { obj with ref_mgmt_state := RefState.LIVE } := by
  unfold liveState
  dsimp only
  rw [upd_apply, if_pos rfl]

theorem MInv_liveState (σ : MgrState) (id : Nat) (obj : RCObject) (hI : MInv σ)
    (hm : σ.objects_by_id id = some obj) : MInv (liveState σ id obj) := by
  constructor
  · intro i l h
    exact hI.pending_nodup i l h
  · intro i l h
    exact hI.stopping_ne_nil i l h
  · intro i obj' h hc
    by_cases hii : i = id
    · subst hii
      rw [liveState_objects_self] at h
      injection h with h
      rw [← h] at hc
      exact absurd hc (by intro h2; exact RefState.noConfusion h2)
    · rw [liveState_objects_ne σ id obj i hii] at h
      exact hI.created_draining i obj' h hc
  · intro i obj' h
    by_cases hii : i = id
    · subst hii
      rw [liveState_objects_self] at h
      injection h with h
      rw [← h]
      exact hI.rc_pos i obj hm
    · rw [liveState_objects_ne σ id obj i hii] at h
      exact hI.rc_pos i obj' h

theorem MInv_startup (σ : MgrState) (id iid : Nat) (hI : MInv σ) :
    MInv (on_object_startup_complete σ id iid).1 := by
  rcases startup_cases σ id iid with ⟨he, _⟩ | ⟨obj, hm, hiid, hst, he⟩ <;> rw [he]
  · exact hI
  · exact MInv_maybe_notify _ _ (MInv_liveState σ id obj hI hm)

theorem MInv_decref (σ : MgrState) (id : Nat) (σ' : MgrState) (evs : List MEvent)
    (h : decref σ id = some (σ', evs)) (hI : MInv σ) : MInv σ' := by
  rcases decref_cases σ id with ⟨hm, he⟩ | ⟨obj, hm, hcase⟩
  · rw [he] at h
    exact Option.noConfusion h
  rcases hcase with ⟨hneg, he⟩ | ⟨hz, hc, he⟩ | ⟨hz, hc, he⟩ | ⟨hneg, hnz, he⟩
  · rw [he] at h
    exact Option.noConfusion h
  · rw [he] at h
    injection h with h
    injection h with h1 h2
    rw [← h1]
    constructor
    · intro i l hp
      simp only [discardState, upd_apply] at hp
      by_cases hii : i = id
      · rw [if_pos hii] at hp
        exact Option.noConfusion hp
      · rw [if_neg hii] at hp
        exact hI.pending_nodup i l hp
    · intro i l hp
      exact hI.stopping_ne_nil i l hp
    · intro i obj' hp hc'
      simp only [discardState, upd_apply] at hp ⊢
      by_cases hii : i = id
      · rw [if_pos hii] at hp
        exact Option.noConfusion hp
      · rw [if_neg hii] at hp
        exact hI.created_draining i obj' hp hc'
    · intro i obj' hp
      simp only [discardState, upd_apply] at hp
      by_cases hii : i = id
      · rw [if_pos hii] at hp
        exact Option.noConfusion hp
      · rw [if_neg hii] at hp
        exact hI.rc_pos i obj' hp
  · rw [he] at h
    injection h with h
    injection h with h1 h2
    rw [← h1]
    constructor
    · intro i l hp
      simp only [drainState, upd_apply] at hp
      by_cases hii : i = id
      · rw [if_pos hii] at hp
        exact Option.noConfusion hp
      · rw [if_neg hii] at hp
        exact hI.pending_nodup i l hp
    · intro i l hp
      simp only [drainState, upd_apply] at hp
      by_cases hii : i = id
      · rw [if_pos hii] at hp
        injection hp with hp
        rw [← hp]
        exact objInsert_ne_nil _ _
      · rw [if_neg hii] at hp
        exact hI.stopping_ne_nil i l hp
    · intro i obj' hp hc'
      simp only [drainState, upd_apply] at hp ⊢
      by_cases hii : i = id
      · rw [if_pos hii] at hp
        exact Option.noConfusion hp
      · rw [if_neg hii] at hp
        rw [if_neg hii]
        exact hI.created_draining i obj' hp hc'
    · intro i obj' hp
      simp only [drainState, upd_apply] at hp
      by_cases hii : i = id
      · rw [if_pos hii] at hp
        exact Option.noConfusion hp
      · rw [if_neg hii] at hp
        exact hI.rc_pos i obj' hp
  · rw [he] at h
    injection h with h
    injection h with h1 h2
    rw [← h1]
    constructor
    · intro i l hp
      exact hI.pending_nodup i l hp
    · intro i l hp
      exact hI.stopping_ne_nil i l hp
    · intro i obj' hp hc'
      simp only [keepState, upd_apply] at hp ⊢
      by_cases hii : i = id
      · rw [if_pos hii] at hp
        injection hp with hp
        rw [← hp] at hc'
        subst hii
        exact hI.created_draining i obj hm hc'
      · rw [if_neg hii] at hp
        exact hI.created_draining i obj' hp hc'
    · intro i obj' hp
      simp only [keepState, upd_apply] at hp
      by_cases hii : i = id
      · rw [if_pos hii] at hp
        injection hp with hp
        rw [← hp]
        dsimp only
        omega
      · rw [if_neg hii] at hp
        exact hI.rc_pos i obj' hp

theorem clearState_stopping (σ : MgrState) (id i : Nat) :
    (clearState σ id).stopping_objects_by_id i = if i = id then none else σ.stopping_objects_by_id i := by
  simp only [clearState, upd_apply]

theorem MInv_cleanup (σ : MgrState) (id iid : Nat) (hI : MInv σ) :
    MInv (on_object_cleanup_complete σ id iid).1 := by
  rcases cleanup_cases σ id iid with ⟨hnil, he⟩ | ⟨hnn, he⟩ <;> rw [he]
  · constructor
    · intro i l hp
      rw [maybe_start_pending] at hp
      exact hI.pending_nodup i l hp
    · intro i l hp
      rw [maybe_start_stopping, clearState_stopping] at hp
      by_cases hii : i = id
      · rw [if_pos hii] at hp
        exact Option.noConfusion hp
      · rw [if_neg hii] at hp
        exact hI.stopping_ne_nil i l hp
    · intro i obj hp hc
      rw [maybe_start_stopping, clearState_stopping]
      rcases maybe_start_cases (clearState σ id) id with ⟨he2, hng⟩ | ⟨obj0, hm0, hc0, hs0, he2⟩
      · rw [he2] at hp
        by_cases hii : i = id
        · subst hii
          exact absurd ⟨hc, by rw [clearState_stopping, if_pos rfl]⟩ (hng obj hp)
        · rw [if_neg hii]
          have : (clearState σ id).objects_by_id i = σ.objects_by_id i := rfl
          rw [this] at hp
          exact hI.created_draining i obj hp hc
      · rw [he2] at hp
        by_cases hii : i = id
        · subst hii
          simp only [startedState, upd_apply, if_pos rfl] at hp
          injection hp with hp
          rw [← hp] at hc
          exact absurd hc (by intro h2; exact RefState.noConfusion h2)
        · simp only [startedState, upd_apply, if_neg hii] at hp
          rw [if_neg hii]
          have : (clearState σ id).objects_by_id i = σ.objects_by_id i := rfl
          rw [this] at hp
          exact hI.created_draining i obj hp hc
    · intro i obj hp
      rcases maybe_start_objects_back (clearState σ id) id i obj hp with h' | ⟨heq, obj0, hm0, hc0, hs0, hobj⟩
      · exact hI.rc_pos i obj h'
      · subst hobj
        exact hI.rc_pos id obj0 hm0
  · constructor
    · intro i l hp
      exact hI.pending_nodup i l hp
    · intro i l hp
      simp only [keepDrainState, upd_apply] at hp
      by_cases hii : i = id
      · rw [if_pos hii] at hp
        injection hp with hp
        rw [← hp]
        exact hnn
      · rw [if_neg hii] at hp
        exact hI.stopping_ne_nil i l hp
    · intro i obj hp hc
      simp only [keepDrainState, upd_apply] at hp ⊢
      by_cases hii : i = id
      · rw [if_pos hii]
        exact fun h2 => Option.noConfusion h2
      · rw [if_neg hii]
        exact hI.created_draining i obj hp hc
    · intro i obj hp
      exact hI.rc_pos i obj hp

theorem MInv_mgrStep (σ : MgrState) (op : MOp) (σ' : MgrState) (evs : List MEvent)
    (h : mgrStep σ op = some (σ', evs)) (hI : MInv σ) : MInv σ' := by
  cases op with
  | getAndIncref oid cb =>
    cases oid with
    | none => exact Option.noConfusion h
    | some id =>
      unfold mgrStep at h
      injection h with h
      have := MInv_get_and_incref σ id cb hI
      rw [h] at this
      exact this
  | startupComplete id iid =>
    unfold mgrStep at h
    injection h with h
    have := MInv_startup σ id iid hI
    rw [h] at this
    exact this
  | decref id =>
    exact MInv_decref σ id σ' evs h hI
  | cleanupComplete id iid =>
    unfold mgrStep at h
    injection h with h
    have := MInv_cleanup σ id iid hI
    rw [h] at this
    exact this

theorem rcOf_liveState (σ : MgrState) (id : Nat) (obj : RCObject)
    (hm : σ.objects_by_id id = some obj) (i : Nat) :
    rcOf (liveState σ id obj) i = rcOf σ i := by
  unfold rcOf
  by_cases hii : i = id
  · subst hii
    rw [liveState_objects_self, hm]
  · rw [liveState_objects_ne σ id obj i hii]

theorem rcOf_mgrStep (σ : MgrState) (op : MOp) (σ' : MgrState) (evs : List MEvent)
    (h : mgrStep σ op = some (σ', evs)) (i : Nat) :
    rcOf σ' i = rcOf σ i + (opAcq op i : Int) - (opDec op i : Int) := by
  cases op with
  | getAndIncref oid cb =>
    cases oid with
    | none => exact Option.noConfusion h
    | some id =>
      unfold mgrStep at h
      injection h with h
      have hfst : σ' = (get_and_incref σ id cb).1 := by rw [h]
      rw [hfst, get_and_incref_eq]
      dsimp only
      rw [maybe_notify_rcOf, maybe_start_rcOf, rcOf_gaiMid]
      by_cases hii : i = id
      · subst hii
        simp [opAcq, opDec]
      · have hii2 : ¬id = i := fun h2 => hii h2.symm
        simp [opAcq, opDec, hii, hii2]
  | startupComplete id iid =>
    unfold mgrStep at h
    injection h with h
    have hfst : σ' = (on_object_startup_complete σ id iid).1 := by rw [h]
    rcases startup_cases σ id iid with ⟨he, _⟩ | ⟨obj, hm, hiid, hst, he⟩ <;>
        rw [hfst, he] <;> unfold opAcq opDec <;> simp only [Nat.cast_zero]
    · simp
    · rw [maybe_notify_rcOf, rcOf_liveState σ id obj hm]
      simp
  | decref id =>
    replace h : decref σ id = some (σ', evs) := h
    rcases decref_cases σ id with ⟨hm, he⟩ | ⟨obj, hm, hcase⟩
    · rw [he] at h
      exact Option.noConfusion h
    have hrc : rcOf σ id = obj.ref_count := by unfold rcOf; rw [hm]
    rcases hcase with ⟨hneg, he⟩ | ⟨hz, hc, he⟩ | ⟨hz, hc, he⟩ | ⟨hneg, hnz, he⟩ <;> rw [he] at h
    · exact Option.noConfusion h
    · injection h with h
      injection h with h1 h2
      rw [← h1]
      unfold opAcq opDec rcOf
      simp only [discardState, upd_apply]
      by_cases hii : i = id
      · subst hii
        rw [if_pos rfl, if_pos rfl, hm]
        dsimp only
        omega
      · rw [if_neg hii, if_neg (fun h2 : id = i => hii h2.symm)]
        simp
    · injection h with h
      injection h with h1 h2
      rw [← h1]
      unfold opAcq opDec rcOf
      simp only [drainState, upd_apply]
      by_cases hii : i = id
      · subst hii
        rw [if_pos rfl, if_pos rfl, hm]
        dsimp only
        omega
      · rw [if_neg hii, if_neg (fun h2 : id = i => hii h2.symm)]
        simp
    · injection h with h
      injection h with h1 h2
      rw [← h1]
      unfold opAcq opDec rcOf
      simp only [keepState, upd_apply]
      by_cases hii : i = id
      · subst hii
        rw [if_pos rfl, if_pos rfl, hm]
        dsimp only
        omega
      · rw [if_neg hii, if_neg (fun h2 : id = i => hii h2.symm)]
        simp
  | cleanupComplete id iid =>
    unfold mgrStep at h
    injection h with h
    have hfst : σ' = (on_object_cleanup_complete σ id iid).1 := by rw [h]
    rcases cleanup_cases σ id iid with ⟨hnil, he⟩ | ⟨hnn, he⟩ <;>
        rw [hfst, he] <;> unfold opAcq opDec <;> simp only [Nat.cast_zero]
    · rw [maybe_start_rcOf]
      have : rcOf (clearState σ id) i = rcOf σ i := rfl
      rw [this]
      simp
    · have : rcOf (keepDrainState σ id iid, ([] : List MEvent)).1 i = rcOf σ i := rfl
      rw [this]
      simp

theorem countAcq_cons (op : MOp) (ops : List MOp) (id : Nat) :
    countAcq (op :: ops) id = opAcq op id + countAcq ops id := by
  cases op with
  | getAndIncref oid cb =>
    cases oid with
    | none => simp [countAcq, opAcq]
    | some i => simp [countAcq, opAcq]
  | startupComplete i iid => simp [countAcq, opAcq]
  | decref i => simp [countAcq, opAcq]
  | cleanupComplete i iid => simp [countAcq, opAcq]

theorem countDec_cons (op : MOp) (ops : List MOp) (id : Nat) :
    countDec (op :: ops) id = opDec op id + countDec ops id := by
  cases op with
  | getAndIncref oid cb =>
    cases oid with
    | none => simp [countDec, opDec]
    | some i => simp [countDec, opDec]
  | startupComplete i iid => simp [countDec, opDec]
  | decref i => simp [countDec, opDec]
  | cleanupComplete i iid => simp [countDec, opDec]

theorem mgrRunFrom_inv (tr : List MOp) :
    ∀ (σ0 σF : MgrState) (evs : List MEvent), MInv σ0 →
      mgrRunFrom σ0 tr = some (σF, evs) →
      MInv σF ∧ ∀ i, rcOf σF i = rcOf σ0 i + (countAcq tr i : Int) - (countDec tr i : Int) := by
  induction tr with
  | nil =>
    intro σ0 σF evs h0 hrun
    unfold mgrRunFrom at hrun
    injection hrun with hrun
    injection hrun with h1 h2
    rw [← h1]
    exact ⟨h0, by intro i; simp [countAcq, countDec]⟩
  | cons op ops ih =>
    intro σ0 σF evs h0 hrun
    unfold mgrRunFrom at hrun
    cases hstep : mgrStep σ0 op with
    | none =>
      rw [hstep] at hrun
      exact Option.noConfusion hrun
    | some p =>
      obtain ⟨σ1, evs1⟩ := p
      rw [hstep] at hrun
      dsimp only at hrun
      cases hrest : mgrRunFrom σ1 ops with
      | none =>
        rw [hrest] at hrun
        exact Option.noConfusion hrun
      | some q =>
        obtain ⟨σ2, evs2⟩ := q
        rw [hrest] at hrun
        dsimp only at hrun
        injection hrun with hrun
        injection hrun with h1 h2
        rw [← h1]
        have hI1 := MInv_mgrStep σ0 op σ1 evs1 hstep h0
        have hstep_rc := rcOf_mgrStep σ0 op σ1 evs1 hstep
        obtain ⟨hI2, hrc2⟩ := ih σ1 σ2 evs2 hI1 hrest
        refine ⟨hI2, ?_⟩
        intro i
        rw [hrc2 i, hstep_rc i, countAcq_cons, countDec_cons]
        push_cast
        ring

theorem MInv_emptyMgr : MInv emptyMgr := by
  constructor
  · intro i l h
    exact Option.noConfusion h
  · intro i l h
    exact Option.noConfusion h
  · intro i obj h
    exact absurd h (by intro h2; exact Option.noConfusion h2)
  · intro i obj h
    exact absurd h (by intro h2; exact Option.noConfusion h2)

theorem finalState_run (tr : List MOp) (h : (mgrRunFrom emptyMgr tr).isSome = true) :
    ∃ evs, mgrRunFrom emptyMgr tr = some (finalState tr, evs) := by
  cases hr : mgrRunFrom emptyMgr tr with
  | none =>
    rw [hr] at h
    exact Bool.noConfusion h
  | some p =>
    refine ⟨p.2, ?_⟩
    unfold finalState
    rw [hr]
    rfl

theorem MInv_finalState (tr : List MOp) (h : (mgrRunFrom emptyMgr tr).isSome = true) :
    MInv (finalState tr) := by
  obtain ⟨evs, hr⟩ := finalState_run tr h
  exact (mgrRunFrom_inv tr emptyMgr (finalState tr) evs MInv_emptyMgr hr).1

theorem mgrStep_gai (σ : MgrState) (j : Nat) (cb : Option Nat) :
    mgrStep σ (MOp.getAndIncref (some j) cb) = some (get_and_incref σ j cb) := rfl

theorem mgrStep_gai_none (σ : MgrState) (cb : Option Nat) :
    mgrStep σ (MOp.getAndIncref none cb) = none := rfl

theorem mgrStep_startup (σ : MgrState) (j iid : Nat) :
    mgrStep σ (MOp.startupComplete j iid) = some (on_object_startup_complete σ j iid) := rfl

theorem mgrStep_decref (σ : MgrState) (j : Nat) :
    mgrStep σ (MOp.decref j) = decref σ j := rfl

theorem mgrStep_cleanup (σ : MgrState) (j iid : Nat) :
    mgrStep σ (MOp.cleanupComplete j iid) = some (on_object_cleanup_complete σ j iid) := rfl

theorem stepEvents_some (σ : MgrState) (op : MOp) (p : MgrState × List MEvent)
    (h : mgrStep σ op = some p) : stepEvents σ op = p.2 := by
  unfold stepEvents
  rw [h]
  rfl

theorem stepState_some (σ : MgrState) (op : MOp) (p : MgrState × List MEvent)
    (h : mgrStep σ op = some p) : stepState σ op = some p.1 := by
  unfold stepState
  rw [h]
  rfl

theorem getD_nodup {f : Nat → Option (List Nat)} (hp : ∀ i l, f i = some l → l.Nodup)
    (i : Nat) : ((f i).getD []).Nodup := by
  cases hf : f i with
  | none => simp
  | some l => simpa using hp i l hf

theorem cbFired_inj (j jid : Nat) : Function.Injective (fun c => MEvent.cbFired c j jid) := by
  intro a b h
  injection h

theorem mem_cbFired_map {cb id iid j jid : Nat} {l : List Nat}
    (h : MEvent.cbFired cb id iid ∈ l.map (fun c => MEvent.cbFired c j jid)) :
    j = id ∧ jid = iid ∧ cb ∈ l := by
  rcases List.mem_map.mp h with ⟨c, hc, he⟩
  injection he with h1 h2 h3
  subst h1
  exact ⟨h2, h3, hc⟩

theorem started_not_mem_cbFired_map (id iid j jid : Nat) (l : List Nat) :
    MEvent.started id iid ∉ l.map (fun c => MEvent.cbFired c j jid) := by
  simp [List.mem_map]

theorem constructed_not_mem_cbFired_map (id iid j jid : Nat) (l : List Nat) :
    MEvent.constructed id iid ∉ l.map (fun c => MEvent.cbFired c j jid) := by
  simp [List.mem_map]

theorem count_cbFired_map (l : List Nat) (cb j jid : Nat) :
    (l.map (fun c => MEvent.cbFired c j jid)).count (MEvent.cbFired cb j jid) = l.count cb :=
  List.count_map_of_injective l _ (cbFired_inj j jid) cb

theorem stepEvents_none (σ : MgrState) (op : MOp) (h : mgrStep σ op = none) :
    stepEvents σ op = [] := by
  unfold stepEvents
  rw [h]
  rfl

/-- A start hook only runs in a step whose post-state has no draining set for
the id, and only while processing an acquire (draining already empty) or the
cleanup notification that emptied the draining set. -/
theorem stepEvents_started (σ : MgrState) (op : MOp) (id iid : Nat)
    (h : MEvent.started id iid ∈ stepEvents σ op) :
    ∃ σ', stepState σ op = some σ' ∧ σ'.stopping_objects_by_id id = none ∧
      (σ.stopping_objects_by_id id = none ∨ ∃ iid2, op = MOp.cleanupComplete id iid2) := by
  cases op with
  | getAndIncref oid cb =>
    cases oid with
    | none =>
      rw [stepEvents_none σ _ (mgrStep_gai_none σ cb)] at h
      exact absurd h (List.not_mem_nil _)
    | some j =>
      rw [stepEvents_some σ _ _ (mgrStep_gai σ j cb), get_and_incref_eq] at h
      dsimp only at h
      rw [List.mem_append, List.mem_append] at h
      rcases h with (h | h) | h
      · exfalso
        revert h
        unfold gaiEv1
        cases σ.objects_by_id j <;> simp
      · rcases maybe_start_cases (gaiMid σ j cb) j with ⟨he, _⟩ | ⟨obj0, hm0, hc0, hs0, he⟩
        · rw [he] at h
          exact absurd h (List.not_mem_nil _)
        · rw [he] at h
          rw [List.mem_singleton] at h
          injection h with h1 h2
          subst h1
          refine ⟨(maybe_notify_referrers (maybe_start (gaiMid σ id cb) id).1 id).1, ?_, ?_, ?_⟩
          · rw [stepState_some σ _ _ (mgrStep_gai σ id cb), get_and_incref_eq]
          · rw [maybe_notify_stopping, maybe_start_stopping, gaiMid_stopping]
            exact hs0
          · left
            exact hs0
      · exfalso
        rcases maybe_notify_cases (maybe_start (gaiMid σ j cb) j).1 j with ⟨he, _⟩ | ⟨obj0, hm0, hc0, he⟩
        · rw [he] at h
          exact absurd h (List.not_mem_nil _)
        · rw [he] at h
          exact started_not_mem_cbFired_map id iid j obj0.iid _ h
  | startupComplete j jid =>
    exfalso
    rcases startup_cases σ j jid with ⟨he, _⟩ | ⟨obj, hm, hiid, hst, he⟩ <;>
        rw [stepEvents_some σ _ _ (mgrStep_startup σ j jid), he] at h
    · exact absurd h (List.not_mem_nil _)
    · rcases maybe_notify_cases (liveState σ j obj) j with ⟨he2, _⟩ | ⟨obj0, hm0, hc0, he2⟩ <;>
          rw [he2] at h
      · exact absurd h (List.not_mem_nil _)
      · exact started_not_mem_cbFired_map id iid j obj0.iid _ h
  | decref j =>
    exfalso
    rcases decref_cases σ j with ⟨hm, he⟩ | ⟨obj, hm, hcase⟩
    · rw [stepEvents_none σ _ (by rw [mgrStep_decref, he])] at h
      exact absurd h (List.not_mem_nil _)
    rcases hcase with ⟨hneg, he⟩ | ⟨hz, hc, he⟩ | ⟨hz, hc, he⟩ | ⟨hneg, hnz, he⟩
    · rw [stepEvents_none σ _ (by rw [mgrStep_decref, he])] at h
      exact absurd h (List.not_mem_nil _)
    · rw [stepEvents_some σ _ _ (by rw [mgrStep_decref, he])] at h
      exact absurd h (List.not_mem_nil _)
    · rw [stepEvents_some σ _ _ (by rw [mgrStep_decref, he])] at h
      rw [List.mem_singleton] at h
      exact MEvent.noConfusion h
    · rw [stepEvents_some σ _ _ (by rw [mgrStep_decref, he])] at h
      exact absurd h (List.not_mem_nil _)
  | cleanupComplete j jid =>
    rcases cleanup_cases σ j jid with ⟨hnil, he⟩ | ⟨hnn, he⟩ <;>
        rw [stepEvents_some σ _ _ (mgrStep_cleanup σ j jid), he] at h
    · rcases maybe_start_cases (clearState σ j) j with ⟨he2, _⟩ | ⟨obj0, hm0, hc0, hs0, he2⟩ <;>
          rw [he2] at h
      · exact absurd h (List.not_mem_nil _)
      · rw [List.mem_singleton] at h
        injection h with h1 h2
        subst h1
        refine ⟨(maybe_start (clearState σ id) id).1, ?_, ?_, Or.inr ⟨jid, rfl⟩⟩
        · rw [stepState_some σ _ _ (mgrStep_cleanup σ id jid), he]
        · rw [maybe_start_stopping, clearState_stopping, if_pos rfl]
    · exact absurd h (List.not_mem_nil _)

/-- The construction hook only runs while processing an acquire for an id with
no current instance; the new object gets the manager's next fresh identity. -/
theorem stepEvents_constructed (σ : MgrState) (op : MOp) (id iid : Nat)
    (h : MEvent.constructed id iid ∈ stepEvents σ op) :
    σ.objects_by_id id = none ∧ iid = σ.next_iid ∧
      ∃ cb, op = MOp.getAndIncref (some id) cb := by
  cases op with
  | getAndIncref oid cb =>
    cases oid with
    | none =>
      rw [stepEvents_none σ _ (mgrStep_gai_none σ cb)] at h
      exact absurd h (List.not_mem_nil _)
    | some j =>
      rw [stepEvents_some σ _ _ (mgrStep_gai σ j cb), get_and_incref_eq] at h
      dsimp only at h
      rw [List.mem_append, List.mem_append] at h
      rcases h with (h | h) | h
      · revert h
        unfold gaiEv1
        cases hm : σ.objects_by_id j with
        | none =>
          intro h
          rw [List.mem_singleton] at h
          injection h with h1 h2
          subst h1
          subst h2
          exact ⟨hm, rfl, cb, rfl⟩
        | some obj =>
          intro h
          exact absurd h (List.not_mem_nil _)
      · exfalso
        rcases maybe_start_cases (gaiMid σ j cb) j with ⟨he, _⟩ | ⟨obj0, hm0, hc0, hs0, he⟩ <;>
            rw [he] at h
        · exact absurd h (List.not_mem_nil _)
        · rw [List.mem_singleton] at h
          exact MEvent.noConfusion h
      · exfalso
        rcases maybe_notify_cases (maybe_start (gaiMid σ j cb) j).1 j with ⟨he, _⟩ | ⟨obj0, hm0, hc0, he⟩ <;>
            rw [he] at h
        · exact absurd h (List.not_mem_nil _)
        · exact constructed_not_mem_cbFired_map id iid j obj0.iid _ h
  | startupComplete j jid =>
    exfalso
    rcases startup_cases σ j jid with ⟨he, _⟩ | ⟨obj, hm, hiid, hst, he⟩ <;>
        rw [stepEvents_some σ _ _ (mgrStep_startup σ j jid), he] at h
    · exact absurd h (List.not_mem_nil _)
    · rcases maybe_notify_cases (liveState σ j obj) j with ⟨he2, _⟩ | ⟨obj0, hm0, hc0, he2⟩ <;>
          rw [he2] at h
      · exact absurd h (List.not_mem_nil _)
      · exact constructed_not_mem_cbFired_map id iid j obj0.iid _ h
  | decref j =>
    exfalso
    rcases decref_cases σ j with ⟨hm, he⟩ | ⟨obj, hm, hcase⟩
    · rw [stepEvents_none σ _ (by rw [mgrStep_decref, he])] at h
      exact absurd h (List.not_mem_nil _)
    rcases hcase with ⟨hneg, he⟩ | ⟨hz, hc, he⟩ | ⟨hz, hc, he⟩ | ⟨hneg, hnz, he⟩
    · rw [stepEvents_none σ _ (by rw [mgrStep_decref, he])] at h
      exact absurd h (List.not_mem_nil _)
    · rw [stepEvents_some σ _ _ (by rw [mgrStep_decref, he])] at h
      exact absurd h (List.not_mem_nil _)
    · rw [stepEvents_some σ _ _ (by rw [mgrStep_decref, he])] at h
      rw [List.mem_singleton] at h
      exact MEvent.noConfusion h
    · rw [stepEvents_some σ _ _ (by rw [mgrStep_decref, he])] at h
      exact absurd h (List.not_mem_nil _)
  | cleanupComplete j jid =>
    exfalso
    rcases cleanup_cases σ j jid with ⟨hnil, he⟩ | ⟨hnn, he⟩ <;>
        rw [stepEvents_some σ _ _ (mgrStep_cleanup σ j jid), he] at h
    · rcases maybe_start_cases (clearState σ j) j with ⟨he2, _⟩ | ⟨obj0, hm0, hc0, hs0, he2⟩ <;>
          rw [he2] at h
      · exact absurd h (List.not_mem_nil _)
      · rw [List.mem_singleton] at h
        exact MEvent.noConfusion h
    · exact absurd h (List.not_mem_nil _)

theorem count_cbFired_gaiEv1 (σ : MgrState) (j c id iid : Nat) :
    (gaiEv1 σ j).count (MEvent.cbFired c id iid) = 0 := by
  unfold gaiEv1
  cases σ.objects_by_id j <;> simp

theorem notifiedState_objects (σ : MgrState) (j : Nat) :
    (notifiedState σ j).objects_by_id = σ.objects_by_id := rfl

theorem notifiedState_pending_self (σ : MgrState) (j : Nat) :
    (notifiedState σ j).pending_ref_callbacks j = none := by
  unfold notifiedState
  dsimp only
  rw [upd_apply, if_pos rfl]

/-- A pending callback is dispatched only in a step that leaves the object for
its id LIVE and current, with the pending entry popped, and it is dispatched
exactly once in that step. -/
theorem stepEvents_cbFired (σ : MgrState) (op : MOp) (cb id iid : Nat) (hI : MInv σ)
    (h : MEvent.cbFired cb id iid ∈ stepEvents σ op) :
    ∃ σ' obj, stepState σ op = some σ' ∧ σ'.objects_by_id id = some obj ∧ obj.iid = iid ∧
      obj.ref_mgmt_state = RefState.LIVE ∧ σ'.pending_ref_callbacks id = none ∧
      (stepEvents σ op).count (MEvent.cbFired cb id iid) = 1 := by
  cases op with
  | getAndIncref oid cb2 =>
    cases oid with
    | none =>
      rw [stepEvents_none σ _ (mgrStep_gai_none σ cb2)] at h
      exact absurd h (List.not_mem_nil _)
    | some j =>
      have hev := stepEvents_some σ _ _ (mgrStep_gai σ j cb2)
      rw [hev, get_and_incref_eq] at h
      dsimp only at h
      rw [List.mem_append, List.mem_append] at h
      have hnotin1 : MEvent.cbFired cb id iid ∉ gaiEv1 σ j := by
        unfold gaiEv1
        cases σ.objects_by_id j <;> simp
      have hnotin2 : MEvent.cbFired cb id iid ∉ (maybe_start (gaiMid σ j cb2) j).2 := by
        rcases maybe_start_cases (gaiMid σ j cb2) j with ⟨he, _⟩ | ⟨obj0, _, _, _, he⟩ <;>
            rw [he] <;> simp
      rcases h with (h | h) | h
      · exact absurd h hnotin1
      · exact absurd h hnotin2
      · rcases maybe_notify_cases (maybe_start (gaiMid σ j cb2) j).1 j with
          ⟨he, _⟩ | ⟨obj0, hm0, hc0, he⟩
        · rw [he] at h
          exact absurd h (List.not_mem_nil _)
        · rw [he] at h
          obtain ⟨hj, hiid, hcbmem⟩ := mem_cbFired_map h
          subst hj
          refine ⟨notifiedState (maybe_start (gaiMid σ j cb2) j).1 j, obj0, ?_, ?_, hiid, hc0, ?_, ?_⟩
          · rw [stepState_some σ _ _ (mgrStep_gai σ j cb2), get_and_incref_eq]
            rw [he]
          · rw [notifiedState_objects]
            exact hm0
          · exact notifiedState_pending_self _ j
          · rw [hev, get_and_incref_eq]
            dsimp only
            rw [List.count_append, List.count_append, count_cbFired_gaiEv1]
            have hz2 : ((maybe_start (gaiMid σ j cb2) j).2).count (MEvent.cbFired cb j iid) = 0 :=
              List.count_eq_zero.mpr hnotin2
            rw [hz2, he]
            dsimp only
            rw [← hiid, count_cbFired_map]
            have hnodup : ((maybe_start (gaiMid σ j cb2) j).1.pending_ref_callbacks j).getD [] |>.Nodup := by
              rw [maybe_start_pending]
              exact getD_nodup (gaiMid_pending_nodup σ j cb2 hI.pending_nodup) j
            rw [List.count_eq_one_of_mem hnodup hcbmem]
  | startupComplete j jid =>
    rcases startup_cases σ j jid with ⟨he, _⟩ | ⟨obj, hm, hiid0, hst, he⟩
    · rw [stepEvents_some σ _ _ (mgrStep_startup σ j jid), he] at h
      exact absurd h (List.not_mem_nil _)
    · have hev := stepEvents_some σ _ _ (mgrStep_startup σ j jid)
      rw [hev, he] at h
      rcases maybe_notify_cases (liveState σ j obj) j with ⟨he2, _⟩ | ⟨obj0, hm0, hc0, he2⟩
      · rw [he2] at h
        exact absurd h (List.not_mem_nil _)
      · rw [he2] at h
        obtain ⟨hj, hiid, hcbmem⟩ := mem_cbFired_map h
        subst hj
        refine ⟨notifiedState (liveState σ j obj) j, obj0, ?_, ?_, hiid, hc0, ?_, ?_⟩
        · rw [stepState_some σ _ _ (mgrStep_startup σ j jid), he, he2]
        · rw [notifiedState_objects]
          exact hm0
        · exact notifiedState_pending_self _ j
        · rw [hev, he, he2]
          dsimp only
          rw [← hiid, count_cbFired_map]
          have hnodup : ((liveState σ j obj).pending_ref_callbacks j).getD [] |>.Nodup :=
            getD_nodup hI.pending_nodup j
          rw [List.count_eq_one_of_mem hnodup hcbmem]
  | decref j =>
    exfalso
    rcases decref_cases σ j with ⟨hm, he⟩ | ⟨obj, hm, hcase⟩
    · rw [stepEvents_none σ _ (by rw [mgrStep_decref, he])] at h
      exact absurd h (List.not_mem_nil _)
    rcases hcase with ⟨hneg, he⟩ | ⟨hz, hc, he⟩ | ⟨hz, hc, he⟩ | ⟨hneg, hnz, he⟩
    · rw [stepEvents_none σ _ (by rw [mgrStep_decref, he])] at h
      exact absurd h (List.not_mem_nil _)
    · rw [stepEvents_some σ _ _ (by rw [mgrStep_decref, he])] at h
      exact absurd h (List.not_mem_nil _)
    · rw [stepEvents_some σ _ _ (by rw [mgrStep_decref, he])] at h
      rw [List.mem_singleton] at h
      exact MEvent.noConfusion h
    · rw [stepEvents_some σ _ _ (by rw [mgrStep_decref, he])] at h
      exact absurd h (List.not_mem_nil _)
  | cleanupComplete j jid =>
    exfalso
    rcases cleanup_cases σ j jid with ⟨hnil, he⟩ | ⟨hnn, he⟩ <;>
        rw [stepEvents_some σ _ _ (mgrStep_cleanup σ j jid), he] at h
    · rcases maybe_start_cases (clearState σ j) j with ⟨he2, _⟩ | ⟨obj0, hm0, hc0, hs0, he2⟩ <;>
          rw [he2] at h
      · exact absurd h (List.not_mem_nil _)
      · rw [List.mem_singleton] at h
        exact MEvent.noConfusion h
    · exact absurd h (List.not_mem_nil _)

/-- Every callback pending for an id is dispatched when the current STARTING
object for that id reports startup complete. -/
theorem startup_flush (σ : MgrState) (j jid cb : Nat) (obj : RCObject) (l : List Nat)
    (hm : σ.objects_by_id j = some obj) (hiid : obj.iid = jid)
    (hst : obj.ref_mgmt_state = RefState.STARTING)
    (hp : σ.pending_ref_callbacks j = some l) (hcb : cb ∈ l) :
    MEvent.cbFired cb j jid ∈ stepEvents σ (MOp.startupComplete j jid) := by
  rcases startup_cases σ j jid with ⟨he, hng⟩ | ⟨obj0, hm0, hiid0, hst0, he⟩
  · exact absurd hst (hng obj hm hiid)
  · rw [stepEvents_some σ _ _ (mgrStep_startup σ j jid), he]
    have hobj : obj0 = obj := by
      rw [hm] at hm0
      injection hm0 with hm0
      exact hm0.symm
    subst hobj
    rcases maybe_notify_cases (liveState σ j obj0) j with ⟨he2, hng2⟩ | ⟨obj1, hm1, hc1, he2⟩
    · exfalso
      exact hng2 _ (liveState_objects_self σ j obj0) rfl
    · rw [he2]
      dsimp only
      have hl : ((liveState σ j obj0).pending_ref_callbacks j).getD [] = l := by
        have : (liveState σ j obj0).pending_ref_callbacks j = some l := hp
        rw [this]
        rfl
      rw [hl]
      refine List.mem_map.mpr ⟨cb, hcb, ?_⟩
      have : obj1 = { obj0 with ref_mgmt_state := RefState.LIVE } := by
        rw [liveState_objects_self] at hm1
        injection hm1 with hm1
        exact hm1.symm
      rw [this, ← hiid]

/-- A startup notification from a non-current or non-STARTING object is
ignored without any state change. -/
theorem startup_ignored (σ : MgrState) (j jid : Nat)
    (hng : ∀ obj, σ.objects_by_id j = some obj → obj.iid = jid →
      obj.ref_mgmt_state ≠ RefState.STARTING) :
    on_object_startup_complete σ j jid = (σ, []) := by
  rcases startup_cases σ j jid with ⟨he, _⟩ | ⟨obj, hm, hiid, hst, he⟩
  · exact he
  · exact absurd hst (hng obj hm hiid)

/-- A cleanup notification for an object that is not in the draining set of its
id is ignored without any state change, in every invariant-satisfying state. -/
theorem cleanup_ignored (σ : MgrState) (j jid : Nat) (hI : MInv σ)
    (hno : ∀ l, σ.stopping_objects_by_id j = some l → ∀ o ∈ l, o.iid ≠ jid) :
    on_object_cleanup_complete σ j jid = (σ, []) := by
  cases hσ : σ.stopping_objects_by_id j with
  | none =>
    have hclear : clearState σ j = σ := by
      refine MgrState.ext' _ _ rfl ?_ rfl rfl
      unfold clearState
      dsimp only
      rw [← hσ, upd_self]
    rcases cleanup_cases σ j jid with ⟨hnil, he⟩ | ⟨hnn, he⟩
    · rw [he, hclear]
      rcases maybe_start_cases σ j with ⟨he2, _⟩ | ⟨obj0, hm0, hc0, hs0, he2⟩
      · exact he2
      · exact absurd hσ (hI.created_draining j obj0 hm0 hc0)
    · exact absurd (by rw [hσ]; rfl) hnn
  | some l =>
    have hne := hI.stopping_ne_nil j l hσ
    have hfix : objDiscard jid ((σ.stopping_objects_by_id j).getD []) = l := by
      rw [hσ]
      show objDiscard jid l = l
      unfold objDiscard
      refine List.filter_eq_self.mpr ?_
      intro o ho
      exact bne_iff_ne.mpr (hno l hσ o ho)
    rcases cleanup_cases σ j jid with ⟨hnil, he⟩ | ⟨hnn, he⟩
    · rw [hfix] at hnil
      exact absurd hnil hne
    · rw [he]
      have hkeep : keepDrainState σ j jid = σ := by
        refine MgrState.ext' _ _ rfl ?_ rfl rfl
        unfold keepDrainState
        dsimp only
        rw [hfix, ← hσ, upd_self]
      rw [hkeep]

theorem mem_listInsert_of_mem (y x : Nat) (l : List Nat) (h : x ∈ l) : x ∈ listInsert y l := by
  unfold listInsert
  split
  · exact h
  · exact List.mem_cons_of_mem y h

theorem HInv_acquire_ref (h : HelperState) (id : Nat) (hI : HInv h) :
    HInv (acquire_ref h id).1 := by
  unfold acquire_ref
  split
  · exact hI
  next hnin =>
    dsimp only
    split
    · refine ⟨listInsert_nodup id _ hI.required_nodup, hI.pending_nodup, hI.keys_nodup, ?_⟩
      intro k hk
      exact mem_listInsert_of_mem id k _ (hI.keys_sub k hk)
    · refine ⟨listInsert_nodup id _ hI.required_nodup,
        listInsert_nodup id _ hI.pending_nodup, hI.keys_nodup, ?_⟩
      intro k hk
      exact mem_listInsert_of_mem id k _ (hI.keys_sub k hk)

theorem HInv_discard_ref (h : HelperState) (id : Nat) (hI : HInv h) :
    HInv (discard_ref h id).1 := by
  have hreq : (listRemove id h.required_refs).Nodup := listRemove_nodup id _ hI.required_nodup
  have hkeys : (dictKeys (dictPop id h.acquired_refs)).Nodup :=
    dictKeys_dictPop_nodup id _ hI.keys_nodup
  have hsub : ∀ k, k ∈ dictKeys (dictPop id h.acquired_refs) → k ∈ listRemove id h.required_refs := by
    intro k hk
    rw [mem_dictKeys_dictPop] at hk
    exact (mem_listRemove id k _).mpr ⟨hI.keys_sub k hk.1, hk.2⟩
  unfold discard_ref
  split
  · dsimp only
    split
    · exact ⟨hreq, hI.pending_nodup, hkeys, hsub⟩
    · exact ⟨hreq, hI.pending_nodup, hkeys, hsub⟩
  · exact hI

theorem HInv_oraMid (h : HelperState) (id obj : Nat) (hI : HInv h) :
    HInv (oraMid h id obj).1 := by
  unfold oraMid
  dsimp only
  split
  next hin =>
    refine ⟨hI.required_nodup, listRemove_nodup id _ hI.pending_nodup, ?_, ?_⟩
    · rw [dictKeys_dictInsert]
      split
      · exact hI.keys_nodup
      next hany =>
        rw [List.nodup_append]
        refine ⟨hI.keys_nodup, List.nodup_singleton id, ?_⟩
        intro x hx hx2
        rw [List.mem_singleton] at hx2
        subst hx2
        exact hany ((any_key_iff_mem x _).mpr hx)
    · intro k hk
      rw [dictKeys_dictInsert] at hk
      revert hk
      split
      · intro hk
        exact hI.keys_sub k hk
      · intro hk
        rw [List.mem_append, List.mem_singleton] at hk
        rcases hk with hk | rfl
        · exact hI.keys_sub k hk
        · exact hin
  · exact ⟨hI.required_nodup, listRemove_nodup id _ hI.pending_nodup, hI.keys_nodup, hI.keys_sub⟩

/-- The readiness transition check at the end of `on_ref_acquired` only adds
the ready event; the state is the mid-state. -/
theorem on_ref_acquired_eq (h : HelperState) (id obj : Nat) :
    on_ref_acquired h id obj =
      if !ready h && ready (oraMid h id obj).1
      then ((oraMid h id obj).1, (oraMid h id obj).2 ++ [HEvent.readyFired])
      else oraMid h id obj := rfl

theorem on_ref_acquired_fst (h : HelperState) (id obj : Nat) :
    (on_ref_acquired h id obj).1 = (oraMid h id obj).1 := by
  rw [on_ref_acquired_eq]
  split
  · rfl
  · rfl

theorem HInv_on_ref_acquired (h : HelperState) (id obj : Nat) (hI : HInv h) :
    HInv (on_ref_acquired h id obj).1 := by
  rw [on_ref_acquired_fst]
  exact HInv_oraMid h id obj hI

theorem HInv_discardList (l : List Nat) : ∀ h : HelperState, HInv h → HInv (discardList l h).1 := by
  induction l with
  | nil => intro h hI; exact hI
  | cons x rest ih =>
    intro h hI
    exact ih _ (HInv_discard_ref h x hI)

theorem HInv_helperStep (h : HelperState) (op : HOp) (hI : HInv h) : HInv (helperStep h op).1 := by
  cases op with
  | acquireRef id => exact HInv_acquire_ref h id hI
  | discardRef id => exact HInv_discard_ref h id hI
  | discardAll => exact HInv_discardList _ h hI
  | onRefAcquired id obj => exact HInv_on_ref_acquired h id obj hI

theorem HInv_helperRunFrom (tr : List HOp) : ∀ h : HelperState, HInv h →
    HInv (helperRunFrom h tr).1 := by
  induction tr with
  | nil => intro h hI; exact hI
  | cons op ops ih =>
    intro h hI
    exact ih _ (HInv_helperStep h op hI)

theorem HInv_emptyHelper : HInv emptyHelper :=
  ⟨List.nodup_nil, List.nodup_nil, List.nodup_nil, fun k hk => absurd hk (List.not_mem_nil k)⟩

theorem HInv_hFinal (tr : List HOp) : HInv (hFinal tr) :=
  HInv_helperRunFrom tr emptyHelper HInv_emptyHelper

theorem length_eq_iff_same_mem (l1 l2 : List Nat) (h1 : l1.Nodup) (h2 : l2.Nodup)
    (hsub : ∀ x, x ∈ l2 → x ∈ l1) :
    l1.length = l2.length ↔ ∀ x, x ∈ l1 ↔ x ∈ l2 := by
  constructor
  · intro hlen x
    have hsub' : l2.toFinset ⊆ l1.toFinset := by
      intro a ha
      exact List.mem_toFinset.mpr (hsub a (List.mem_toFinset.mp ha))
    have hcard : l1.toFinset.card ≤ l2.toFinset.card := by
      rw [List.toFinset_card_of_nodup h1, List.toFinset_card_of_nodup h2, hlen]
    have heq := Finset.eq_of_subset_of_card_le hsub' hcard
    constructor
    · intro hx
      have : x ∈ l2.toFinset := by
        rw [heq]
        exact List.mem_toFinset.mpr hx
      exact List.mem_toFinset.mp this
    · exact hsub x
  · intro hmem
    have heq : l1.toFinset = l2.toFinset := by
      apply Finset.ext
      intro a
      rw [List.mem_toFinset, List.mem_toFinset]
      exact hmem a
    rw [← List.toFinset_card_of_nodup h1, ← List.toFinset_card_of_nodup h2, heq]

/-- In any state satisfying the helper invariant, the length comparison in
`ready` agrees with set equality of `required_refs` and the acquired keys. -/
theorem ready_iff_same_mem (h : HelperState) (hI : HInv h) :
    ready h = true ↔ ∀ x, x ∈ h.required_refs ↔ x ∈ dictKeys h.acquired_refs := by
  unfold ready
  rw [beq_iff_eq]
  have hlen : h.acquired_refs.length = (dictKeys h.acquired_refs).length := by
    unfold dictKeys
    rw [List.length_map]
  rw [hlen]
  exact length_eq_iff_same_mem _ _ hI.required_nodup hI.keys_nodup hI.keys_sub

theorem oraMid_count_ready (h : HelperState) (id obj : Nat) :
    (oraMid h id obj).2.count HEvent.readyFired = 0 := by
  unfold oraMid
  dsimp only
  split <;> simp

theorem on_ref_acquired_ready_count (h : HelperState) (id obj : Nat) :
    (on_ref_acquired h id obj).2.count HEvent.readyFired =
      if !ready h && ready (on_ref_acquired h id obj).1 then 1 else 0 := by
  rw [on_ref_acquired_eq]
  by_cases hc : (!ready h && ready (oraMid h id obj).1) = true
  · rw [if_pos hc]
    dsimp only
    rw [if_pos hc, List.count_append, oraMid_count_ready]
    simp
  · rw [if_neg hc]
    have hfst : (oraMid h id obj).1 = (oraMid h id obj).1 := rfl
    rw [if_neg ?_]
    · exact oraMid_count_ready h id obj
    · exact hc

theorem on_ref_acquired_ready_mem (h : HelperState) (id obj : Nat)
    (hmem : HEvent.readyFired ∈ (on_ref_acquired h id obj).2) :
    ready (on_ref_acquired h id obj).1 = true ∧ ready h = false := by
  rw [on_ref_acquired_eq] at hmem ⊢
  by_cases hc : (!ready h && ready (oraMid h id obj).1) = true
  · rw [if_pos hc]
    rw [Bool.and_eq_true, Bool.not_eq_true'] at hc
    exact ⟨hc.2, hc.1⟩
  · rw [if_neg hc] at hmem
    exfalso
    have := List.count_eq_zero.mp (oraMid_count_ready h id obj)
    exact this hmem

/-- C1: Generation-overlap invariant: a current instance transitions from
CREATED to STARTING (its start hook runs) only in a step after which the
draining set for its identifier is empty — either it was already empty, or the
step is the cleanup-complete notification that emptied it; and when a
cleanup-complete notification empties the draining set for an identifier, the
entry is removed and the manager re-attempts to start any current CREATED
instance for that identifier, so a new generation never starts while an old
generation is still draining. -/
theorem c1_generation_overlap (σ : MgrState) (op : MOp) (id : Nat) :
    (∀ iid, MEvent.started id iid ∈ stepEvents σ op →
      ∃ σ', stepState σ op = some σ' ∧ σ'.stopping_objects_by_id id = none ∧
        (σ.stopping_objects_by_id id = none ∨ ∃ iid2, op = MOp.cleanupComplete id iid2)) ∧
    (∀ iid obj, op = MOp.cleanupComplete id iid →
      σ.objects_by_id id = some obj → obj.ref_mgmt_state = RefState.CREATED →
      objDiscard iid ((σ.stopping_objects_by_id id).getD []) = [] →
      MEvent.started id obj.iid ∈ stepEvents σ op ∧
        ∃ σ', stepState σ op = some σ' ∧ σ'.stopping_objects_by_id id = none) := by
  constructor
  · intro iid h
    exact stepEvents_started σ op id iid h
  · rintro iid obj rfl hm hc hnil
    rcases cleanup_cases σ id iid with ⟨hnil2, he⟩ | ⟨hnn, he⟩
    · rcases maybe_start_cases (clearState σ id) id with ⟨he2, hng⟩ | ⟨obj0, hm0, hc0, hs0, he2⟩
      · exfalso
        refine hng obj hm ⟨hc, ?_⟩
        rw [clearState_stopping, if_pos rfl]
      · have hobj : obj0 = obj := by
          have : (clearState σ id).objects_by_id id = σ.objects_by_id id := rfl
          rw [this, hm] at hm0
          injection hm0 with hm0
          exact hm0.symm
        subst hobj
        constructor
        · rw [stepEvents_some σ _ _ (mgrStep_cleanup σ id iid), he, he2]
          exact List.mem_singleton.mpr rfl
        · refine ⟨(maybe_start (clearState σ id) id).1, ?_, ?_⟩
          · rw [stepState_some σ _ _ (mgrStep_cleanup σ id iid), he]
          · rw [maybe_start_stopping, clearState_stopping, if_pos rfl]
    · exact absurd hnil hnn

theorem c1_generation_overlap_witness :
    (∃ σ', stepState drainingCreatedState (MOp.cleanupComplete 0 5) = some σ' ∧
      σ'.stopping_objects_by_id 0 = none ∧
      (drainingCreatedState.stopping_objects_by_id 0 = none ∨
        ∃ iid2, MOp.cleanupComplete 0 5 = MOp.cleanupComplete 0 iid2)) ∧
    (MEvent.started 0 0 ∈ stepEvents drainingCreatedState (MOp.cleanupComplete 0 5) ∧
      ∃ σ', stepState drainingCreatedState (MOp.cleanupComplete 0 5) = some σ' ∧
        σ'.stopping_objects_by_id 0 = none) := by
  constructor
  · exact (c1_generation_overlap drainingCreatedState (MOp.cleanupComplete 0 5) 0).1 0 (by decide)
  · exact (c1_generation_overlap drainingCreatedState (MOp.cleanupComplete 0 5) 0).2 5
      { iid := 0, ref_count := 1, ref_mgmt_state := RefState.CREATED } rfl (by decide) (by decide)
      (by decide)

/-- C4: when decref brings the count of an identifier's current instance to
zero, the instance is removed from the registry and its pending callbacks are
discarded within the same step; a never-started CREATED instance is discarded
with no teardown upcall, while any other instance is marked STOPPING, added to
the draining set, and receives its on_unreferenced upcall. -/
theorem c4_decref_to_zero (σ : MgrState) (id : Nat) (obj : RCObject)
    (hm : σ.objects_by_id id = some obj) (hrc : obj.ref_count = 1) :
    ∃ σ', stepState σ (MOp.decref id) = some σ' ∧
      σ'.objects_by_id id = none ∧ σ'.pending_ref_callbacks id = none ∧
      (obj.ref_mgmt_state = RefState.CREATED →
        stepEvents σ (MOp.decref id) = [] ∧
        σ'.stopping_objects_by_id id = σ.stopping_objects_by_id id) ∧
      (obj.ref_mgmt_state ≠ RefState.CREATED →
        stepEvents σ (MOp.decref id) = [MEvent.unreferenced id obj.iid] ∧
        σ'.stopping_objects_by_id id =
          some (objInsert { obj with ref_count := 0, ref_mgmt_state := RefState.STOPPING }
            ((σ.stopping_objects_by_id id).getD []))) := by
  rcases decref_cases σ id with ⟨hm2, he⟩ | ⟨obj2, hm2, hcase⟩
  · rw [hm] at hm2
    exact Option.noConfusion hm2
  · have hobj : obj2 = obj := by
      rw [hm] at hm2
      injection hm2 with hm2
      exact hm2.symm
    subst hobj
    rcases hcase with ⟨hneg, he⟩ | ⟨hz, hc, he⟩ | ⟨hz, hc, he⟩ | ⟨hneg, hnz, he⟩
    · exfalso
      omega
    · refine ⟨discardState σ id, ?_, ?_, ?_, ?_, ?_⟩
      · rw [stepState_some σ _ _ (by rw [mgrStep_decref, he])]
      · simp [discardState, upd_apply]
      · simp [discardState, upd_apply]
      · intro _
        refine ⟨?_, rfl⟩
        rw [stepEvents_some σ _ _ (by rw [mgrStep_decref, he])]
      · intro hnc
        exact absurd hc hnc
    · refine ⟨drainState σ id obj2, ?_, ?_, ?_, ?_, ?_⟩
      · rw [stepState_some σ _ _ (by rw [mgrStep_decref, he])]
      · simp [drainState, upd_apply]
      · simp [drainState, upd_apply]
      · intro hcc
        exact absurd hcc hc
      · intro _
        refine ⟨?_, ?_⟩
        · rw [stepEvents_some σ _ _ (by rw [mgrStep_decref, he])]
        · simp [drainState, upd_apply]
    · exfalso
      omega

theorem c4_decref_to_zero_witness :
    ∃ σ', stepState liveOneRefState (MOp.decref 0) = some σ' ∧
      σ'.objects_by_id 0 = none ∧ σ'.pending_ref_callbacks 0 = none ∧
      (RCObject.ref_mgmt_state { iid := 0, ref_count := 1, ref_mgmt_state := RefState.LIVE } = RefState.CREATED →
        stepEvents liveOneRefState (MOp.decref 0) = [] ∧
        σ'.stopping_objects_by_id 0 = liveOneRefState.stopping_objects_by_id 0) ∧
      (RCObject.ref_mgmt_state { iid := 0, ref_count := 1, ref_mgmt_state := RefState.LIVE } ≠ RefState.CREATED →
        stepEvents liveOneRefState (MOp.decref 0) = [MEvent.unreferenced 0 0] ∧
        σ'.stopping_objects_by_id 0 =
          some (objInsert { iid := 0, ref_count := 0, ref_mgmt_state := RefState.STOPPING }
            ((liveOneRefState.stopping_objects_by_id 0).getD []))) :=
  c4_decref_to_zero liveOneRefState 0
    { iid := 0, ref_count := 1, ref_mgmt_state := RefState.LIVE } (by decide) (by decide)

/-- C7: a startup-complete notification whose instance is not the current
instance for its identifier or is not STARTING leaves the manager state
unchanged and raises no error, and a cleanup-complete notification for an
instance no longer in the draining set likewise causes no state change, in
every reachable manager state. -/
theorem c7_stale_upcalls_ignored (tr : List MOp) (id iid : Nat)
    (hr : (mgrRunFrom emptyMgr tr).isSome = true) :
    ((∀ obj, (finalState tr).objects_by_id id = some obj → obj.iid = iid →
        obj.ref_mgmt_state ≠ RefState.STARTING) →
      mgrStep (finalState tr) (MOp.startupComplete id iid) = some (finalState tr, [])) ∧
    ((∀ l, (finalState tr).stopping_objects_by_id id = some l → ∀ o ∈ l, o.iid ≠ iid) →
      mgrStep (finalState tr) (MOp.cleanupComplete id iid) = some (finalState tr, [])) := by
  have hI := MInv_finalState tr hr
  constructor
  · intro hng
    rw [mgrStep_startup, startup_ignored _ _ _ hng]
  · intro hno
    rw [mgrStep_cleanup, cleanup_ignored _ _ _ hI hno]

theorem c7_stale_upcalls_ignored_witness :
    mgrStep (finalState overlapTrace) (MOp.startupComplete 0 9) =
      some (finalState overlapTrace, []) ∧
    mgrStep (finalState overlapTrace) (MOp.cleanupComplete 0 9) =
      some (finalState overlapTrace, []) := by
  have hnone : (finalState overlapTrace).objects_by_id 0 = none := by decide
  have hst : (finalState overlapTrace).stopping_objects_by_id 0 =
      some [{ iid := 0, ref_count := 0, ref_mgmt_state := RefState.STOPPING }] := by decide
  constructor
  · refine (c7_stale_upcalls_ignored overlapTrace 0 9 (by decide)).1 ?_
    intro obj hobj
    rw [hnone] at hobj
    exact Option.noConfusion hobj
  · refine (c7_stale_upcalls_ignored overlapTrace 0 9 (by decide)).2 ?_
    intro l hl o ho
    rw [hst] at hl
    injection hl with hl
    rw [← hl] at ho
    rw [List.mem_singleton] at ho
    subst ho
    decide

/-- C3: a pending acquire callback fires only in a step that leaves the
targeted instance LIVE and current, never before the LIVE transition; all
callbacks pending at the LIVE transition are flushed together in that step,
each exactly once, and the pending set for the identifier is cleared, so no
callback fires twice. -/
theorem c3_callbacks_fire_once (tr : List MOp) (op : MOp) (cb id iid : Nat)
    (hr : (mgrRunFrom emptyMgr tr).isSome = true) :
    (MEvent.cbFired cb id iid ∈ stepEvents (finalState tr) op →
      ∃ σ' obj, stepState (finalState tr) op = some σ' ∧
        σ'.objects_by_id id = some obj ∧ obj.iid = iid ∧
        obj.ref_mgmt_state = RefState.LIVE ∧ σ'.pending_ref_callbacks id = none ∧
        (stepEvents (finalState tr) op).count (MEvent.cbFired cb id iid) = 1) ∧
    (∀ obj l, op = MOp.startupComplete id iid →
      (finalState tr).objects_by_id id = some obj → obj.iid = iid →
      obj.ref_mgmt_state = RefState.STARTING →
      (finalState tr).pending_ref_callbacks id = some l → cb ∈ l →
      MEvent.cbFired cb id iid ∈ stepEvents (finalState tr) op) := by
  have hI := MInv_finalState tr hr
  constructor
  · intro h
    exact stepEvents_cbFired (finalState tr) op cb id iid hI h
  · rintro obj l rfl hm hiid hst hp hcb
    exact startup_flush (finalState tr) id iid cb obj l hm hiid hst hp hcb

theorem c3_callbacks_fire_once_witness :
    (∃ σ' obj, stepState (finalState liveFlushTrace) (MOp.startupComplete 0 0) = some σ' ∧
      σ'.objects_by_id 0 = some obj ∧ obj.iid = 0 ∧
      obj.ref_mgmt_state = RefState.LIVE ∧ σ'.pending_ref_callbacks 0 = none ∧
      (stepEvents (finalState liveFlushTrace) (MOp.startupComplete 0 0)).count
        (MEvent.cbFired 7 0 0) = 1) ∧
    MEvent.cbFired 7 0 0 ∈ stepEvents (finalState liveFlushTrace) (MOp.startupComplete 0 0) := by
  constructor
  · exact (c3_callbacks_fire_once liveFlushTrace (MOp.startupComplete 0 0) 7 0 0
      (by decide)).1 (by decide)
  · exact (c3_callbacks_fire_once liveFlushTrace (MOp.startupComplete 0 0) 7 0 0
      (by decide)).2 { iid := 0, ref_count := 1, ref_mgmt_state := RefState.STARTING } [7]
      rfl (by decide) (by decide) (by decide) (by decide) (by decide)

/-- C6 counterexample: after acquiring, starting and releasing id 0, its first
generation is still draining (the draining set for id 0 is non-empty), yet a
new acquire for id 0 invokes the construction hook and builds a second
generation — refuting the claim that a second generation is never constructed
while the draining set is non-empty. -/
theorem c6_counterexample :
    (mgrRunFrom emptyMgr overlapTrace).isSome = true ∧
    overlapState.stopping_objects_by_id 0 =
      some [{ iid := 0, ref_count := 0, ref_mgmt_state := RefState.STOPPING }] ∧
    MEvent.constructed 0 1 ∈ stepEvents overlapState (MOp.getAndIncref (some 0) none) := by
  refine ⟨by decide, by decide, by decide⟩

/-- C6 as amended: a repeated acquire for an identifier with a current
instance reuses that instance (same identity) and only increments its
reference count, invoking no construction hook; the construction hook runs
only when the identifier has no current instance; and a second generation is
never started (rather than never constructed) while the draining set for the
identifier is non-empty. -/
theorem c6_idempotent_acquire (σ : MgrState) (op : MOp) (id : Nat) (cb : Option Nat) :
    (∀ obj, σ.objects_by_id id = some obj →
      ∃ σ' obj', stepState σ (MOp.getAndIncref (some id) cb) = some σ' ∧
        σ'.objects_by_id id = some obj' ∧ obj'.iid = obj.iid ∧
        obj'.ref_count = obj.ref_count + 1 ∧
        ∀ iid, MEvent.constructed id iid ∉ stepEvents σ (MOp.getAndIncref (some id) cb)) ∧
    (∀ iid, MEvent.constructed id iid ∈ stepEvents σ op → σ.objects_by_id id = none) ∧
    (∀ iid, MEvent.started id iid ∈ stepEvents σ op →
      ∃ σ', stepState σ op = some σ' ∧ σ'.stopping_objects_by_id id = none) := by
  refine ⟨?_, ?_, ?_⟩
  · intro obj hm
    have hgobj : gaiObj σ id = obj := by
      unfold gaiObj
      rw [hm]
    have hmid : (gaiMid σ id cb).objects_by_id id =
        some { obj with ref_count := obj.ref_count + 1 } := by
      rw [gaiMid_objects_self, hgobj]
    have hnc : ∀ iid, MEvent.constructed id iid ∉ stepEvents σ (MOp.getAndIncref (some id) cb) := by
      intro iid hmem
      have := (stepEvents_constructed σ _ id iid hmem).1
      rw [hm] at this
      exact Option.noConfusion this
    rcases maybe_start_cases (gaiMid σ id cb) id with ⟨he, _⟩ | ⟨obj0, hm0, hc0, hs0, he⟩
    · refine ⟨(maybe_notify_referrers (maybe_start (gaiMid σ id cb) id).1 id).1,
        { obj with ref_count := obj.ref_count + 1 }, ?_, ?_, rfl, rfl, hnc⟩
      · rw [stepState_some σ _ _ (mgrStep_gai σ id cb), get_and_incref_eq]
      · rw [maybe_notify_objects, he]
        exact hmid
    · have hobj0 : obj0 = { obj with ref_count := obj.ref_count + 1 } := by
        rw [hmid] at hm0
        injection hm0 with hm0
        exact hm0.symm
      refine ⟨(maybe_notify_referrers (maybe_start (gaiMid σ id cb) id).1 id).1,
        { obj0 with ref_mgmt_state := RefState.STARTING }, ?_, ?_, ?_, ?_, hnc⟩
      · rw [stepState_some σ _ _ (mgrStep_gai σ id cb), get_and_incref_eq]
      · rw [maybe_notify_objects, he]
        simp [startedState, upd_apply]
      · rw [hobj0]
      · rw [hobj0]
  · intro iid hmem
    exact (stepEvents_constructed σ op id iid hmem).1
  · intro iid hmem
    obtain ⟨σ', h1, h2, _⟩ := stepEvents_started σ op id iid hmem
    exact ⟨σ', h1, h2⟩

theorem c6_idempotent_acquire_witness :
    (∃ σ' obj', stepState liveOneRefState (MOp.getAndIncref (some 0) none) = some σ' ∧
      σ'.objects_by_id 0 = some obj' ∧ obj'.iid = 0 ∧
      obj'.ref_count = 1 + 1 ∧
      ∀ iid, MEvent.constructed 0 iid ∉ stepEvents liveOneRefState (MOp.getAndIncref (some 0) none)) ∧
    emptyMgr.objects_by_id 0 = none ∧
    (∃ σ', stepState emptyMgr (MOp.getAndIncref (some 0) none) = some σ' ∧
      σ'.stopping_objects_by_id 0 = none) := by
  refine ⟨?_, ?_, ?_⟩
  · exact (c6_idempotent_acquire liveOneRefState (MOp.getAndIncref (some 0) none) 0 none).1
      { iid := 0, ref_count := 1, ref_mgmt_state := RefState.LIVE } (by decide)
  · exact (c6_idempotent_acquire emptyMgr (MOp.getAndIncref (some 0) none) 0 none).2.1 0
      (by decide)
  · exact (c6_idempotent_acquire emptyMgr (MOp.getAndIncref (some 0) none) 0 none).2.2 0
      (by decide)

/-- C8: reference-count safety: along any trace the number of acquires for an
identifier minus the number of releases equals the current reference count and
is never negative; an acquire with a null identifier, a release for an
identifier with no current instance, and any release that would drop a count
below zero hit a fatal assertion; and a release that reaches exactly zero
removes the identifier from the registry within the same step. -/
theorem c8_refcount_safety (tr : List MOp) (id : Nat) (cb : Option Nat)
    (hr : (mgrRunFrom emptyMgr tr).isSome = true) :
    mgrStep (finalState tr) (MOp.getAndIncref none cb) = none ∧
    ((finalState tr).objects_by_id id = none →
      mgrStep (finalState tr) (MOp.decref id) = none) ∧
    (∀ σ0 obj, σ0.objects_by_id id = some obj → obj.ref_count ≤ 0 →
      mgrStep σ0 (MOp.decref id) = none) ∧
    countDec tr id ≤ countAcq tr id ∧
    rcOf (finalState tr) id = (countAcq tr id : Int) - (countDec tr id : Int) ∧
    (∀ obj, (finalState tr).objects_by_id id = some obj → obj.ref_count = 1 →
      ∃ σ', stepState (finalState tr) (MOp.decref id) = some σ' ∧
        σ'.objects_by_id id = none) := by
  obtain ⟨evs, hrun⟩ := finalState_run tr hr
  obtain ⟨hIF, hrc⟩ := mgrRunFrom_inv tr emptyMgr (finalState tr) evs MInv_emptyMgr hrun
  have hrcid := hrc id
  have hrc0 : rcOf emptyMgr id = 0 := rfl
  rw [hrc0] at hrcid
  have hnonneg : 0 ≤ rcOf (finalState tr) id := by
    unfold rcOf
    cases hm : (finalState tr).objects_by_id id with
    | none => exact le_refl 0
    | some obj =>
      have := hIF.rc_pos id obj hm
      dsimp only
      omega
  refine ⟨mgrStep_gai_none _ cb, ?_, ?_, ?_, ?_, ?_⟩
  · intro hnone
    rw [mgrStep_decref]
    unfold decref
    rw [hnone]
  · intro σ0 obj hm hle
    rw [mgrStep_decref]
    rcases decref_cases σ0 id with ⟨hm2, he⟩ | ⟨obj2, hm2, hcase⟩
    · exact he
    · have hobj : obj2 = obj := by
        rw [hm] at hm2
        injection hm2 with hm2
        exact hm2.symm
      subst hobj
      rcases hcase with ⟨hneg, he⟩ | ⟨hz, hc, he⟩ | ⟨hz, hc, he⟩ | ⟨hneg, hnz, he⟩
      · exact he
      · exfalso
        omega
      · exfalso
        omega
      · exfalso
        omega
  · omega
  · omega
  · intro obj hm hrc1
    rcases decref_cases (finalState tr) id with ⟨hm2, he⟩ | ⟨obj2, hm2, hcase⟩
    · rw [hm] at hm2
      exact Option.noConfusion hm2
    · have hobj : obj2 = obj := by
        rw [hm] at hm2
        injection hm2 with hm2
        exact hm2.symm
      subst hobj
      rcases hcase with ⟨hneg, he⟩ | ⟨hz, hc, he⟩ | ⟨hz, hc, he⟩ | ⟨hneg, hnz, he⟩
      · exfalso
        omega
      · refine ⟨discardState (finalState tr) id, ?_, ?_⟩
        · rw [stepState_some _ _ _ (by rw [mgrStep_decref, he])]
        · simp [discardState, upd_apply]
      · refine ⟨drainState (finalState tr) id obj2, ?_, ?_⟩
        · rw [stepState_some _ _ _ (by rw [mgrStep_decref, he])]
        · simp [drainState, upd_apply]
      · exfalso
        omega

theorem c8_refcount_safety_witness :
    mgrStep (finalState liveFlushTrace) (MOp.getAndIncref none none) = none ∧
    ((finalState liveFlushTrace).objects_by_id 3 = none →
      mgrStep (finalState liveFlushTrace) (MOp.decref 3) = none) ∧
    (∀ σ0 obj, σ0.objects_by_id 3 = some obj → obj.ref_count ≤ 0 →
      mgrStep σ0 (MOp.decref 3) = none) ∧
    countDec liveFlushTrace 3 ≤ countAcq liveFlushTrace 3 ∧
    rcOf (finalState liveFlushTrace) 3 =
      (countAcq liveFlushTrace 3 : Int) - (countDec liveFlushTrace 3 : Int) ∧
    (∀ obj, (finalState liveFlushTrace).objects_by_id 3 = some obj → obj.ref_count = 1 →
      ∃ σ', stepState (finalState liveFlushTrace) (MOp.decref 3) = some σ' ∧
        σ'.objects_by_id 3 = none) :=
  c8_refcount_safety liveFlushTrace 3 none (by decide)

/-- C2: in every reachable helper state, `ready` is true exactly when
`required_refs` and the key set of `acquired_refs` are equal as sets. -/
theorem c2_ready_iff_membership (tr : List HOp) :
    ready (hFinal tr) = true ↔
      ∀ x, x ∈ (hFinal tr).required_refs ↔ x ∈ dictKeys (hFinal tr).acquired_refs :=
  ready_iff_same_mem (hFinal tr) (HInv_hFinal tr)

/-- C5: discarding a reference while its acquire is outstanding issues no
release at discard time; when the acquire callback then lands, exactly one
release is issued for the identifier — never zero and never two. -/
theorem c5_acquire_discard_race (a o : Nat) :
    helperRun [HOp.acquireRef a, HOp.discardRef a] =
      ({ required_refs := [], pending_increfs := [a], acquired_refs := [] },
       [HEvent.increfSent a]) ∧
    helperRun [HOp.acquireRef a, HOp.discardRef a, HOp.onRefAcquired a o] =
      ({ required_refs := [], pending_increfs := [], acquired_refs := [] },
       [HEvent.increfSent a, HEvent.decrefSent a]) ∧
    (helperRun [HOp.acquireRef a, HOp.discardRef a, HOp.onRefAcquired a o]).2.count
      (HEvent.decrefSent a) = 1 ∧
    (helperRun [HOp.acquireRef a, HOp.discardRef a]).2.count (HEvent.decrefSent a) = 0 := by
  have h1 : helperRun [HOp.acquireRef a, HOp.discardRef a] =
      ({ required_refs := [], pending_increfs := [a], acquired_refs := [] },
       [HEvent.increfSent a]) := by
    simp [helperRun, helperRunFrom, helperStep, acquire_ref, discard_ref, emptyHelper,
      listInsert, listRemove, dictPop, List.filter]
  have h2 : helperRun [HOp.acquireRef a, HOp.discardRef a, HOp.onRefAcquired a o] =
      ({ required_refs := [], pending_increfs := [], acquired_refs := [] },
       [HEvent.increfSent a, HEvent.decrefSent a]) := by
    simp [helperRun, helperRunFrom, helperStep, acquire_ref, discard_ref, on_ref_acquired,
      emptyHelper, listInsert, listRemove, dictPop, ready, List.filter]
  refine ⟨h1, h2, ?_, ?_⟩
  · rw [h2]
    simp [List.count_cons]
  · rw [h1]
    simp [List.count_cons]

/-- C9: during `on_ref_acquired` the ready callback fires exactly once when
readiness transitions from false to true and otherwise not at all, and when it
fires every identifier in `required_refs` has a matching entry in
`acquired_refs`. -/
theorem c9_ready_callback (tr : List HOp) (id obj : Nat) :
    ((on_ref_acquired (hFinal tr) id obj).2.count HEvent.readyFired =
      if !ready (hFinal tr) && ready (on_ref_acquired (hFinal tr) id obj).1 then 1 else 0) ∧
    (HEvent.readyFired ∈ (on_ref_acquired (hFinal tr) id obj).2 →
      ready (hFinal tr) = false ∧
      ∀ x ∈ (on_ref_acquired (hFinal tr) id obj).1.required_refs,
        x ∈ dictKeys (on_ref_acquired (hFinal tr) id obj).1.acquired_refs) := by
  constructor
  · exact on_ref_acquired_ready_count _ id obj
  · intro hmem
    obtain ⟨hready, hfalse⟩ := on_ref_acquired_ready_mem _ id obj hmem
    refine ⟨hfalse, ?_⟩
    have hI' : HInv (on_ref_acquired (hFinal tr) id obj).1 :=
      HInv_on_ref_acquired _ id obj (HInv_hFinal tr)
    intro x hx
    exact ((ready_iff_same_mem _ hI').mp hready x).mp hx

theorem c9_ready_callback_witness :
    ((on_ref_acquired (hFinal [HOp.acquireRef 0]) 0 7).2.count HEvent.readyFired =
      if !ready (hFinal [HOp.acquireRef 0]) &&
          ready (on_ref_acquired (hFinal [HOp.acquireRef 0]) 0 7).1 then 1 else 0) ∧
    (ready (hFinal [HOp.acquireRef 0]) = false ∧
      ∀ x ∈ (on_ref_acquired (hFinal [HOp.acquireRef 0]) 0 7).1.required_refs,
        x ∈ dictKeys (on_ref_acquired (hFinal [HOp.acquireRef 0]) 0 7).1.acquired_refs) :=
  ⟨(c9_ready_callback [HOp.acquireRef 0] 0 7).1,
   (c9_ready_callback [HOp.acquireRef 0] 0 7).2 (by decide)⟩

theorem subset_acquire_ref (h : HelperState) (id : Nat)
    (hs : ∀ y, y ∈ dictKeys h.acquired_refs → y ∈ h.required_refs) :
    ∀ x, x ∈ dictKeys (acquire_ref h id).1.acquired_refs → x ∈ (acquire_ref h id).1.required_refs := by
  unfold acquire_ref
  split
  · exact hs
  · dsimp only
    split
    · intro x hx
      exact mem_listInsert_of_mem id x _ (hs x hx)
    · intro x hx
      exact mem_listInsert_of_mem id x _ (hs x hx)

theorem subset_discard_ref (h : HelperState) (id : Nat)
    (hs : ∀ y, y ∈ dictKeys h.acquired_refs → y ∈ h.required_refs) :
    ∀ x, x ∈ dictKeys (discard_ref h id).1.acquired_refs → x ∈ (discard_ref h id).1.required_refs := by
  unfold discard_ref
  split
  · dsimp only
    have hcore : ∀ x, x ∈ dictKeys (dictPop id h.acquired_refs) →
        x ∈ listRemove id h.required_refs := by
      intro x hx
      rw [mem_dictKeys_dictPop] at hx
      exact (mem_listRemove id x _).mpr ⟨hs x hx.1, hx.2⟩
    split
    · exact hcore
    · exact hcore
  · exact hs

theorem subset_oraMid (h : HelperState) (id obj : Nat)
    (hs : ∀ y, y ∈ dictKeys h.acquired_refs → y ∈ h.required_refs) :
    ∀ x, x ∈ dictKeys (oraMid h id obj).1.acquired_refs →
      x ∈ (oraMid h id obj).1.required_refs := by
  unfold oraMid
  dsimp only
  split
  next hin =>
    intro x hx
    rw [dictKeys_dictInsert] at hx
    revert hx
    split
    · intro hx
      exact hs x hx
    · intro hx
      rw [List.mem_append, List.mem_singleton] at hx
      rcases hx with hx | rfl
      · exact hs x hx
      · exact hin
  · exact hs

theorem subset_discardList (l : List Nat) : ∀ h : HelperState,
    (∀ y, y ∈ dictKeys h.acquired_refs → y ∈ h.required_refs) →
    ∀ x, x ∈ dictKeys (discardList l h).1.acquired_refs →
      x ∈ (discardList l h).1.required_refs := by
  induction l with
  | nil => intro h hs; exact hs
  | cons a rest ih =>
    intro h hs
    exact ih _ (subset_discard_ref h a hs)

theorem subset_helperStep (h : HelperState) (op : HOp)
    (hs : ∀ y, y ∈ dictKeys h.acquired_refs → y ∈ h.required_refs) :
    ∀ x, x ∈ dictKeys (helperStep h op).1.acquired_refs →
      x ∈ (helperStep h op).1.required_refs := by
  cases op with
  | acquireRef id => exact subset_acquire_ref h id hs
  | discardRef id => exact subset_discard_ref h id hs
  | discardAll => exact subset_discardList _ h hs
  | onRefAcquired id obj =>
    intro x hx
    replace hx : x ∈ dictKeys (on_ref_acquired h id obj).1.acquired_refs := hx
    rw [on_ref_acquired_fst] at hx
    show x ∈ (on_ref_acquired h id obj).1.required_refs
    rw [on_ref_acquired_fst]
    exact subset_oraMid h id obj hs x hx

/-- C10: in every reachable helper state the key set of `acquired_refs` is a
subset of `required_refs`; every helper operation preserves this subset
property from any state that has it; and consequently the length comparison in
`ready` coincides with set equality of `required_refs` and the acquired keys. -/
theorem c10_acquired_subset_invariant (tr : List HOp) :
    (∀ x, x ∈ dictKeys (hFinal tr).acquired_refs → x ∈ (hFinal tr).required_refs) ∧
    (∀ h op, (∀ y, y ∈ dictKeys h.acquired_refs → y ∈ h.required_refs) →
      ∀ x, x ∈ dictKeys (helperStep h op).1.acquired_refs →
        x ∈ (helperStep h op).1.required_refs) ∧
    ((hFinal tr).required_refs.length = (hFinal tr).acquired_refs.length ↔
      ∀ x, x ∈ (hFinal tr).required_refs ↔ x ∈ dictKeys (hFinal tr).acquired_refs) := by
  have hI := HInv_hFinal tr
  refine ⟨hI.keys_sub, ?_, ?_⟩
  · intro h op hs
    exact subset_helperStep h op hs
  · have hlen : (hFinal tr).acquired_refs.length = (dictKeys (hFinal tr).acquired_refs).length := by
      unfold dictKeys
      rw [List.length_map]
    rw [hlen]
    exact length_eq_iff_same_mem _ _ hI.required_nodup hI.keys_nodup hI.keys_sub

theorem c10_acquired_subset_invariant_witness :
    (∀ x, x ∈ dictKeys (hFinal []).acquired_refs → x ∈ (hFinal []).required_refs) ∧
    (∀ x, x ∈ dictKeys (helperStep { required_refs := [0], pending_increfs := [0], acquired_refs := [] }
        (HOp.onRefAcquired 0 5)).1.acquired_refs →
      x ∈ (helperStep { required_refs := [0], pending_increfs := [0], acquired_refs := [] }
        (HOp.onRefAcquired 0 5)).1.required_refs) ∧
    ((hFinal []).required_refs.length = (hFinal []).acquired_refs.length ↔
      ∀ x, x ∈ (hFinal []).required_refs ↔ x ∈ dictKeys (hFinal []).acquired_refs) := by
  refine ⟨(c10_acquired_subset_invariant []).1, ?_, (c10_acquired_subset_invariant []).2.2⟩
  refine (c10_acquired_subset_invariant []).2.1 _ _ ?_
  intro y hy
  simp [dictKeys] at hy
